import Mathlib

/-!
# Texture validation utilities of the gfx unit tests

A shallow embedding of `tools/gfx-unit-test/gfx-test-texture-util.h`:

* `ValidationTextureFormat<T>`: one value of a uniform type `T` per channel;
* `PackedValidationTextureFormat<T>`: all channels packed as bit fields of one
  unsigned storage word;
* `ValidationTextureData::getBlockAt`: stride addressing inside one subresource.

Conventions of the embedding.

* A C++ `int` is a mathematical integer, and `int` arithmetic wraps modulo
  `2^32` in two's complement (`wrapInt32`).
* The unsigned storage type `T` of a packed format is given by its bit width
  `bits`; a value of `T` is a natural number below `2^bits`.
* A shift whose count is negative or not smaller than the width of the
  (promoted) left operand has no defined result: the operation returns `none`.
* `assert` and `SLANG_CHECK_ABORT` terminate the call: the operation returns
  `none`.
* `SLANG_CHECK(c)` records the outcome of `c` and continues; a comparison
  returns the list of recorded outcomes, in execution order.
* A block of memory viewed as an array of `T` is a function from the element
  index to the element.
-/

namespace gfx_test

/-! ## Machine arithmetic -/

/-- Two's-complement wrap of an integer into the range of a 32-bit `int`. -/
def wrapInt32 (v : Int) : Int := (v + 2 ^ 31) % 2 ^ 32 - 2 ^ 31

/-- The sum `a + b` of two `int` operands. -/
def intAdd (a b : Int) : Int := wrapInt32 (a + b)

/-- The difference `a - b` of two `int` operands. -/
def intSub (a b : Int) : Int := wrapInt32 (a - b)

/-- The expression `1 << n` on `int`: defined for a count in `[0, 32)`. -/
def intShiftLeftOne (n : Int) : Option Int :=
  if 0 ≤ n ∧ n < 32 then some (wrapInt32 (2 ^ n.toNat)) else none

/-- Width of the operand type after integral promotion: a storage type narrower
than `int` is promoted to `int`, a wider one keeps its width. -/
def promotedBits (bits : Nat) : Nat := max bits 32

/-- The conversion of an `int` to the unsigned storage type of `bits` bits. -/
def toStorage (bits : Nat) (v : Int) : Nat := (v % 2 ^ bits).toNat

/-- The statement `temp |= v` for `temp` of the storage type and `v` an `int`:
the bitwise or is taken after the usual conversions and stored back into the
storage type, which keeps the low `bits` bits. -/
def orAssign (bits : Nat) (temp : Nat) (v : Int) : Nat :=
  (temp ||| toStorage bits v) % 2 ^ bits

/-- The statement `temp <<= n`: defined for a count in `[0, promotedBits)`, the
result is stored back into the storage type. -/
def shlAssign (bits : Nat) (temp : Nat) (n : Int) : Option Nat :=
  if 0 ≤ n ∧ n < promotedBits bits then some ((temp <<< n.toNat) % 2 ^ bits) else none

/-- The statement `texel >>= n`: defined for a count in `[0, promotedBits)`. -/
def shrAssign (bits : Nat) (texel : Nat) (n : Int) : Option Nat :=
  if 0 ≤ n ∧ n < promotedBits bits then some ((texel >>> n.toNat) % 2 ^ bits) else none

/-- The expression `texel & mask` for `texel` of the storage type and `mask` an
`int`, stored into the storage type. -/
def andMask (bits : Nat) (texel : Nat) (mask : Int) : Nat :=
  (texel &&& toStorage bits mask) % 2 ^ bits

/-- The expression `texel & ((1 << n) - 1)` of `unpackTexel`. -/
def maskField (bits : Nat) (texel : Nat) (n : Int) : Option Nat :=
  match intShiftLeftOne n with
  | some p => some (andMask bits texel (intSub p 1))
  | none => none

/-- The assignment `temp[k] = v` on a block viewed as an array. -/
def store {T : Type} (temp : Nat → T) (k : Nat) (v : T) : Nat → T :=
  fun i => if i = k then v else temp i

/-! ## ValidationTextureFormat -/

/-- The struct `ValidationTextureFormat<T>`. -/
structure ValidationTextureFormat where
  componentCount : Int
deriving Repr, DecidableEq

/-- The method `ValidationTextureFormat<T>::validateBlocksEqual`: one
`SLANG_CHECK(a[i] == e[i])` for each `i` from `0` while `i < componentCount`;
entry `i` of the result is the outcome of check `i`. -/
def ValidationTextureFormat.validateBlocksEqual {T : Type} [DecidableEq T]
    (self : ValidationTextureFormat) (a e : Nat → T) : List Bool :=
  (List.range self.componentCount.toNat).map (fun i => decide (a i = e i))

/-- The method `ValidationTextureFormat<T>::initializeTexel`; `cast` is the
conversion `T(v)` of an `int` to `T`. The result is the block after the call,
`none` when the call aborts. -/
def ValidationTextureFormat.initializeTexel {T : Type} (cast : Int → T)
    (self : ValidationTextureFormat) (temp : Nat → T)
    (x y z mipLevel arrayLayer : Int) : Option (Nat → T) :=
  if self.componentCount = 1 then
    some (store temp 0 (cast (intAdd (intAdd (intAdd (intAdd x y) z) mipLevel) arrayLayer)))
  else if self.componentCount = 2 then
    let temp := store temp 0 (cast (intAdd (intAdd x z) arrayLayer))
    let temp := store temp 1 (cast (intAdd y mipLevel))
    some temp
  else if self.componentCount = 3 then
    let temp := store temp 0 (cast (intAdd x mipLevel))
    let temp := store temp 1 (cast (intAdd y arrayLayer))
    let temp := store temp 2 (cast z)
    some temp
  else if self.componentCount = 4 then
    let temp := store temp 0 (cast (intAdd x arrayLayer))
    let temp := store temp 1 (cast y)
    let temp := store temp 2 (cast z)
    let temp := store temp 3 (cast mipLevel)
    some temp
  else
    none

/-- The stores `temp[k] = v` that `ValidationTextureFormat<T>::initializeTexel`
performs before it returns or aborts, in program order, as pairs `(k, v)`. -/
def ValidationTextureFormat.initializeTexelStores {T : Type} (cast : Int → T)
    (self : ValidationTextureFormat) (x y z mipLevel arrayLayer : Int) : List (Nat × T) :=
  if self.componentCount = 1 then
    [(0, cast (intAdd (intAdd (intAdd (intAdd x y) z) mipLevel) arrayLayer))]
  else if self.componentCount = 2 then
    [(0, cast (intAdd (intAdd x z) arrayLayer)), (1, cast (intAdd y mipLevel))]
  else if self.componentCount = 3 then
    [(0, cast (intAdd x mipLevel)), (1, cast (intAdd y arrayLayer)), (2, cast z)]
  else if self.componentCount = 4 then
    [(0, cast (intAdd x arrayLayer)), (1, cast y), (2, cast z), (3, cast mipLevel)]
  else
    []

/-! ## PackedValidationTextureFormat -/

/-- The struct `PackedValidationTextureFormat<T>`; `bits` is the bit width of
the unsigned storage type `T`. -/
structure PackedValidationTextureFormat where
  bits : Nat
  rBits : Int
  gBits : Int
  bBits : Int
  aBits : Int
deriving Repr, DecidableEq

/-- The method `PackedValidationTextureFormat<T>::initializeTexel`; the result
is the word stored into the texel. -/
def PackedValidationTextureFormat.initializeTexel (self : PackedValidationTextureFormat)
    (x y z mipLevel arrayLayer : Int) : Option Nat :=
  let temp : Nat := 0
  if self.aBits = 0 then do
    let temp := orAssign self.bits temp z
    let temp ← shlAssign self.bits temp self.gBits
    let temp := orAssign self.bits temp (intAdd y arrayLayer)
    let temp ← shlAssign self.bits temp self.rBits
    let temp := orAssign self.bits temp (intAdd x mipLevel)
    pure temp
  else do
    let temp := orAssign self.bits temp mipLevel
    let temp ← shlAssign self.bits temp self.bBits
    let temp := orAssign self.bits temp z
    let temp ← shlAssign self.bits temp self.gBits
    let temp := orAssign self.bits temp y
    let temp ← shlAssign self.bits temp self.rBits
    let temp := orAssign self.bits temp (intAdd x arrayLayer)
    pure temp

/-- The method `PackedValidationTextureFormat<T>::unpackTexel`; the result is
the array `outComponents[0..3]`. -/
def PackedValidationTextureFormat.unpackTexel (self : PackedValidationTextureFormat)
    (texel : Nat) : Option (List Nat) := do
  let out0 ← maskField self.bits texel self.rBits
  let texel ← shrAssign self.bits texel self.rBits
  let out1 ← maskField self.bits texel self.gBits
  let texel ← shrAssign self.bits texel self.gBits
  let out2 ← maskField self.bits texel self.bBits
  let texel ← shrAssign self.bits texel self.bBits
  let out3 ← maskField self.bits texel self.aBits
  let _ ← shrAssign self.bits texel self.aBits
  pure [out0, out1, out2, out3]

/-- The method `PackedValidationTextureFormat<T>::validateBlocksEqual`: both
words are unpacked, then one `SLANG_CHECK(a[i] == e[i])` is made for each of the
four components; entry `i` of the result is the outcome of check `i`. -/
def PackedValidationTextureFormat.validateBlocksEqual (self : PackedValidationTextureFormat)
    (actual expected : Nat) : Option (List Bool) := do
  let a ← self.unpackTexel actual
  let e ← self.unpackTexel expected
  pure ((List.range 4).map (fun i => decide (a.getD i 0 = e.getD i 0)))

/-- The effect of `PackedValidationTextureFormat<T>::initializeTexel` on the
block that `texel` points to, viewed as an array of `T`: the final statement
`*(T*)texel = temp` stores the word into element 0. -/
def PackedValidationTextureFormat.initializeTexelBlock (self : PackedValidationTextureFormat)
    (texel : Nat → Nat) (x y z mipLevel arrayLayer : Int) : Option (Nat → Nat) := do
  let temp ← self.initializeTexel x y z mipLevel arrayLayer
  pure (store texel 0 temp)

/-! ## ValidationTextureData -/

/-- The struct `ITextureResource::Size`. -/
structure Size where
  width : Int
  height : Int
  depth : Int
deriving Repr, DecidableEq

/-- The struct `ITextureResource::Offset3D`. -/
structure Offset3D where
  x : Int
  y : Int
  z : Int
deriving Repr, DecidableEq

/-- The struct `ValidationTextureData`; `textureData` is the address of the
first byte of the subresource. -/
structure ValidationTextureData where
  textureData : Int
  extents : Size
  strides : Offset3D
deriving Repr, DecidableEq

/-- The method `ValidationTextureData::getBlockAt`: the address of the block, or
`none` when an assertion fails. -/
def ValidationTextureData.getBlockAt (self : ValidationTextureData) (x y z : Int) :
    Option Int :=
  if ¬ (x ≥ 0 ∧ x < self.extents.width) then none
  else if ¬ (y ≥ 0 ∧ y < self.extents.height) then none
  else if ¬ (z ≥ 0 ∧ z < self.extents.depth) then none
  else
    let layerData := self.textureData + z * self.strides.z
    let rowData := layerData + y * self.strides.y
    some (rowData + x * self.strides.x)

/-! ## Lemmas on the machine arithmetic -/

/-- An integer in the range of `int` is left unchanged by the wrap. -/
theorem wrapInt32_of_range (v : Int) (h1 : -2 ^ 31 ≤ v) (h2 : v < 2 ^ 31) : wrapInt32 v = v := by
  unfold wrapInt32
  rw [Int.emod_eq_of_lt] <;> omega

/-- An `int` sum of non-negative operands that stays below `2^31` is the exact sum. -/
theorem intAdd_natCast (a b : Nat) (h : a + b < 2 ^ 31) :
    intAdd (a : Int) (b : Int) = ((a + b : Nat) : Int) := by
  unfold intAdd
  rw [wrapInt32_of_range] <;> push_cast <;> omega

/-- Conversion of a non-negative `int` to the storage type keeps the low `bits` bits. -/
theorem toStorage_natCast (bits v : Nat) : toStorage bits (v : Int) = v % 2 ^ bits := by
  unfold toStorage
  have : ((v : Int) % 2 ^ bits) = ((v % 2 ^ bits : Nat) : Int) := by push_cast; rfl
  rw [this, Int.toNat_natCast]

/-- Or-ing a value below `2^n` into a word whose low `n` bits are zero adds it. -/
theorem orAssign_mul_add (bits n t v : Nat) (hv : v < 2 ^ n) (hlt : t * 2 ^ n + v < 2 ^ bits) :
    orAssign bits (t * 2 ^ n) (v : Int) = t * 2 ^ n + v := by
  unfold orAssign
  have hv2 : v < 2 ^ bits := by omega
  rw [toStorage_natCast, Nat.mod_eq_of_lt hv2, Nat.mul_comm t, ← Nat.mul_add_lt_is_or hv t]
  rw [Nat.mul_comm] at hlt
  exact Nat.mod_eq_of_lt hlt

/-- Or-ing a value that fits the storage type into the zero word gives the value. -/
theorem orAssign_zero (bits v : Nat) (hv : v < 2 ^ bits) : orAssign bits 0 (v : Int) = v := by
  unfold orAssign
  rw [toStorage_natCast, Nat.mod_eq_of_lt hv, Nat.zero_or, Nat.mod_eq_of_lt hv]

/-- A left shift within the promoted width that does not overflow multiplies by `2^n`. -/
theorem shlAssign_natCast (bits t n : Nat) (hn : n < promotedBits bits)
    (h : t * 2 ^ n < 2 ^ bits) : shlAssign bits t (n : Int) = some (t * 2 ^ n) := by
  unfold shlAssign
  have h1 : (0 : Int) ≤ (n : Int) ∧ (n : Int) < (promotedBits bits : Int) := by
    constructor <;> omega
  rw [if_pos h1, Int.toNat_natCast, Nat.shiftLeft_eq, Nat.mod_eq_of_lt h]

/-- A right shift within the promoted width divides by `2^n`. -/
theorem shrAssign_natCast (bits t n : Nat) (hn : n < promotedBits bits)
    (h : t < 2 ^ bits) : shrAssign bits t (n : Int) = some (t / 2 ^ n) := by
  unfold shrAssign
  have h1 : (0 : Int) ≤ (n : Int) ∧ (n : Int) < (promotedBits bits : Int) := by
    constructor <;> omega
  have h2 : t / 2 ^ n < 2 ^ bits := lt_of_le_of_lt (Nat.div_le_self _ _) h
  rw [if_pos h1, Int.toNat_natCast, Nat.shiftRight_eq_div_pow, Nat.mod_eq_of_lt h2]

/-- For a width below 32 the `int` expression `(1 << n) - 1` is defined and equals `2^n - 1`. -/
theorem fieldMask_natCast (n : Nat) (hn : n < 32) :
    intShiftLeftOne (n : Int) = some (wrapInt32 (2 ^ n)) ∧
      intSub (wrapInt32 (2 ^ n)) 1 = ((2 ^ n - 1 : Nat) : Int) := by
  constructor
  · unfold intShiftLeftOne
    have h1 : (0 : Int) ≤ (n : Int) ∧ (n : Int) < 32 := by constructor <;> omega
    rw [if_pos h1, Int.toNat_natCast]
  · interval_cases n <;> decide

/-- Masking a storage word with `2^n - 1` keeps its low `n` bits. -/
theorem andMask_pow_sub_one (bits t n : Nat) (h : t < 2 ^ bits) :
    andMask bits t ((2 ^ n - 1 : Nat) : Int) = t % 2 ^ n := by
  unfold andMask
  rw [toStorage_natCast, ← Nat.and_pow_two_sub_one_eq_mod (2 ^ n - 1) bits,
    ← Nat.and_assoc, Nat.and_pow_two_sub_one_eq_mod t n, Nat.and_pow_two_sub_one_eq_mod,
    Nat.mod_mod]
  exact Nat.mod_eq_of_lt (lt_of_le_of_lt (Nat.mod_le _ _) h)

/-- For a width below 32, `texel & ((1 << n) - 1)` is `texel mod 2^n`. -/
theorem maskField_natCast (bits t n : Nat) (hn : n < 32) (h : t < 2 ^ bits) :
    maskField bits t (n : Int) = some (t % 2 ^ n) := by
  unfold maskField
  rw [(fieldMask_natCast n hn).1]
  simp only [(fieldMask_natCast n hn).2, andMask_pow_sub_one bits t n h]

/-- Closed form of `unpackTexel` for widths below 32. -/
theorem unpackTexel_natCast (bits r g b a t : Nat) (hr : r < 32) (hg : g < 32) (hb : b < 32)
    (ha : a < 32) (ht : t < 2 ^ bits) :
    (PackedValidationTextureFormat.mk bits r g b a).unpackTexel t =
      some [t % 2 ^ r, t / 2 ^ r % 2 ^ g, t / 2 ^ r / 2 ^ g % 2 ^ b,
        t / 2 ^ r / 2 ^ g / 2 ^ b % 2 ^ a] := by
  have hp : 32 ≤ promotedBits bits := le_max_right _ _
  have h1 : t / 2 ^ r < 2 ^ bits := lt_of_le_of_lt (Nat.div_le_self _ _) ht
  have h2 : t / 2 ^ r / 2 ^ g < 2 ^ bits := lt_of_le_of_lt (Nat.div_le_self _ _) h1
  have h3 : t / 2 ^ r / 2 ^ g / 2 ^ b < 2 ^ bits := lt_of_le_of_lt (Nat.div_le_self _ _) h2
  simp only [PackedValidationTextureFormat.unpackTexel,
    maskField_natCast bits _ r hr ht, shrAssign_natCast bits t r (by omega) ht,
    maskField_natCast bits _ g hg h1, shrAssign_natCast bits _ g (by omega) h1,
    maskField_natCast bits _ b hb h2, shrAssign_natCast bits _ b (by omega) h2,
    maskField_natCast bits _ a ha h3, shrAssign_natCast bits _ a (by omega) h3,
    Option.bind_eq_bind, Option.some_bind, Option.pure_def, bind, pure]

/-- A `k`-bit value followed by an `n`-bit value is a `(k+n)`-bit value. -/
theorem horner_lt (t v n k : Nat) (ht : t < 2 ^ k) (hv : v < 2 ^ n) :
    t * 2 ^ n + v < 2 ^ (k + n) := by
  have h1 : (t + 1) * 2 ^ n ≤ 2 ^ k * 2 ^ n := Nat.mul_le_mul_right _ ht
  rw [pow_add]
  have h2 : (t + 1) * 2 ^ n = t * 2 ^ n + 2 ^ n := by ring
  omega

/-- The word built by the branch `aBits == 0` of `initializeTexel`, in the nested
form in which the code builds it. -/
theorem initializeTexel_three (bits r g b x y z m l : Nat)
    (hr : r < promotedBits bits) (hg : g < promotedBits bits) (hsum : r + g + b ≤ bits)
    (hx : x + m < 2 ^ r) (hy : y + l < 2 ^ g) (hz : z < 2 ^ b)
    (hxi : x + m < 2 ^ 31) (hyi : y + l < 2 ^ 31) :
    (PackedValidationTextureFormat.mk bits r g b 0).initializeTexel x y z m l =
      some ((z * 2 ^ g + (y + l)) * 2 ^ r + (x + m)) := by
  have mono : ∀ k, k ≤ bits → 2 ^ k ≤ 2 ^ bits := fun k hk =>
    Nat.pow_le_pow_right (by norm_num) hk
  have e1 : z < 2 ^ bits := lt_of_lt_of_le hz (mono b (by omega))
  have e2 : z * 2 ^ g + (y + l) < 2 ^ bits :=
    lt_of_lt_of_le (horner_lt z (y + l) g b hz hy) (mono _ (by omega))
  have e3 : z * 2 ^ g < 2 ^ bits := by omega
  have e4 : (z * 2 ^ g + (y + l)) * 2 ^ r + (x + m) < 2 ^ bits :=
    lt_of_lt_of_le (horner_lt _ (x + m) r (b + g) (horner_lt z (y + l) g b hz hy) hx)
      (mono _ (by omega))
  have e5 : (z * 2 ^ g + (y + l)) * 2 ^ r < 2 ^ bits := by omega
  simp only [PackedValidationTextureFormat.initializeTexel, if_true,
    orAssign_zero bits z e1, shlAssign_natCast bits z g hg e3,
    intAdd_natCast y l hyi, orAssign_mul_add bits g z (y + l) hy e2,
    shlAssign_natCast bits _ r hr e5, intAdd_natCast x m hxi,
    orAssign_mul_add bits r _ (x + m) hx e4,
    Option.bind_eq_bind, Option.some_bind, Option.pure_def, bind, pure]

/-- The word built by the branch `aBits != 0` of `initializeTexel`, in the nested
form in which the code builds it. -/
theorem initializeTexel_four (bits r g b a x y z m l : Nat) (ha : 0 < a)
    (hsum : r + g + b + a ≤ bits)
    (hx : x + l < 2 ^ r) (hy : y < 2 ^ g) (hz : z < 2 ^ b) (hm : m < 2 ^ a)
    (hxi : x + l < 2 ^ 31) :
    (PackedValidationTextureFormat.mk bits r g b a).initializeTexel x y z m l =
      some (((m * 2 ^ b + z) * 2 ^ g + y) * 2 ^ r + (x + l)) := by
  have mono : ∀ k, k ≤ bits → 2 ^ k ≤ 2 ^ bits := fun k hk =>
    Nat.pow_le_pow_right (by norm_num) hk
  have hp : bits ≤ promotedBits bits := le_max_left _ _
  have ha0 : ¬ ((a : Int) = 0) := by omega
  have e1 : m < 2 ^ bits := lt_of_lt_of_le hm (mono a (by omega))
  have k2 := horner_lt m z b a hm hz
  have e2 : m * 2 ^ b + z < 2 ^ bits := lt_of_lt_of_le k2 (mono _ (by omega))
  have e3 : m * 2 ^ b < 2 ^ bits := by omega
  have k4 := horner_lt _ y g (a + b) k2 hy
  have e4 : (m * 2 ^ b + z) * 2 ^ g + y < 2 ^ bits := lt_of_lt_of_le k4 (mono _ (by omega))
  have e5 : (m * 2 ^ b + z) * 2 ^ g < 2 ^ bits := by omega
  have k6 := horner_lt _ (x + l) r (a + b + g) k4 hx
  have e6 : ((m * 2 ^ b + z) * 2 ^ g + y) * 2 ^ r + (x + l) < 2 ^ bits :=
    lt_of_lt_of_le k6 (mono _ (by omega))
  have e7 : ((m * 2 ^ b + z) * 2 ^ g + y) * 2 ^ r < 2 ^ bits := by omega
  simp only [PackedValidationTextureFormat.initializeTexel, if_neg ha0,
    orAssign_zero bits m e1, shlAssign_natCast bits m b (by omega) e3,
    orAssign_mul_add bits b m z hz e2,
    shlAssign_natCast bits _ g (by omega) e5,
    orAssign_mul_add bits g _ y hy e4,
    shlAssign_natCast bits _ r (by omega) e7, intAdd_natCast x l hxi,
    orAssign_mul_add bits r _ (x + l) hx e6,
    Option.bind_eq_bind, Option.some_bind, Option.pure_def, bind, pure]

/-- The low `n` bits of a word built by shift-and-or. -/
theorem horner_mod (t v n : Nat) (hv : v < 2 ^ n) : (t * 2 ^ n + v) % 2 ^ n = v := by
  rw [Nat.add_comm, Nat.add_mul_mod_self_right, Nat.mod_eq_of_lt hv]

/-- The bits above the low `n` bits of a word built by shift-and-or. -/
theorem horner_div (t v n : Nat) (hv : v < 2 ^ n) : (t * 2 ^ n + v) / 2 ^ n = t := by
  rw [Nat.add_comm, Nat.add_mul_div_right _ _ (Nat.two_pow_pos n), Nat.div_eq_of_lt hv,
    Nat.zero_add]

/-! ## Packed codec: stored word and round trip -/

/-- C1 (as stated, refuted): with the 32-bit storage type and the widths
`(32, 0, 0, 0)`, whose sum is the bit width of `T`, the coordinate `(1, 0, 0, 0, 0)`
has all its field values within their widths, yet no word is recovered as
`[1, 0, 0, 0]`: `initializeTexel` shifts by the full width of `T`, and for every
word `unpackTexel` evaluates `1 << 32` on `int`, which has no defined result. -/
theorem packed_round_trip_counterexample :
    ((32 : Int) + 0 + 0 + 0 ≤ 32 ∧ (1 : Int) + 0 < 2 ^ 32 ∧ (0 : Int) + 0 < 2 ^ 0 ∧
      (0 : Int) < 2 ^ 0) ∧
    (¬ ∃ w, (PackedValidationTextureFormat.mk 32 32 0 0 0).initializeTexel 1 0 0 0 0 = some w ∧
      (PackedValidationTextureFormat.mk 32 32 0 0 0).unpackTexel w = some [1, 0, 0, 0]) ∧
    (∀ w, (PackedValidationTextureFormat.mk 32 32 0 0 0).unpackTexel w = none) := by
  refine ⟨by decide, ?_, ?_⟩
  · rintro ⟨w, hw, -⟩
    have hnone : (PackedValidationTextureFormat.mk 32 32 0 0 0).initializeTexel 1 0 0 0 0 = none := by
      decide
    rw [hnone] at hw
    cases hw
  · intro w
    rfl

/-- C1 (amended): for bit widths whose sum is at most the bit width of `T` and
each of which is at most 31, and for non-negative coordinates whose layout
field values fit their widths, `unpackTexel` applied to the word stored by
`initializeTexel` returns exactly the field values, in the order r, g, b, a:
`[x+mipLevel, y+arrayLayer, z, 0]` when `aBits = 0` and
`[x+arrayLayer, y, z, mipLevel]` when `aBits > 0`. -/
theorem packed_round_trip (bits r g b a x y z m l : Nat) (hsum : r + g + b + a ≤ bits)
    (hr : r < 32) (hg : g < 32) (hb : b < 32) (ha : a < 32) :
    (a = 0 → x + m < 2 ^ r → y + l < 2 ^ g → z < 2 ^ b →
      ∃ w, (PackedValidationTextureFormat.mk bits r g b a).initializeTexel x y z m l = some w ∧
        (PackedValidationTextureFormat.mk bits r g b a).unpackTexel w =
          some [x + m, y + l, z, 0]) ∧
    (0 < a → x + l < 2 ^ r → y < 2 ^ g → z < 2 ^ b → m < 2 ^ a →
      ∃ w, (PackedValidationTextureFormat.mk bits r g b a).initializeTexel x y z m l = some w ∧
        (PackedValidationTextureFormat.mk bits r g b a).unpackTexel w =
          some [x + l, y, z, m]) := by
  have hp : 32 ≤ promotedBits bits := le_max_right _ _
  have mono : ∀ k, k ≤ bits → 2 ^ k ≤ 2 ^ bits := fun k hk =>
    Nat.pow_le_pow_right (by norm_num) hk
  have small : ∀ k v : Nat, k < 32 → v < 2 ^ k → v < 2 ^ 31 := fun k v hk hv =>
    lt_of_lt_of_le hv (Nat.pow_le_pow_right (by norm_num) (by omega))
  constructor
  · intro ha0 hx hy hz
    subst ha0
    refine ⟨_, initializeTexel_three bits r g b x y z m l (by omega) (by omega) (by omega)
      hx hy hz (small r _ hr hx) (small g _ hg hy), ?_⟩
    have k1 := horner_lt z (y + l) g b hz hy
    have k2 := horner_lt _ (x + m) r (b + g) k1 hx
    have hw : (z * 2 ^ g + (y + l)) * 2 ^ r + (x + m) < 2 ^ bits :=
      lt_of_lt_of_le k2 (mono _ (by omega))
    have h3 := unpackTexel_natCast bits r g b 0 _ hr hg hb (by omega) hw
    rw [horner_mod _ _ r hx, horner_div _ _ r hx, horner_mod _ _ g hy, horner_div _ _ g hy,
      Nat.mod_eq_of_lt hz, Nat.div_eq_of_lt hz] at h3
    simpa using h3
  · intro ha0 hx hy hz hm
    refine ⟨_, initializeTexel_four bits r g b a x y z m l ha0 hsum hx hy hz hm
      (small r _ hr hx), ?_⟩
    have k1 := horner_lt m z b a hm hz
    have k2 := horner_lt _ y g (a + b) k1 hy
    have k3 := horner_lt _ (x + l) r (a + b + g) k2 hx
    have hw : ((m * 2 ^ b + z) * 2 ^ g + y) * 2 ^ r + (x + l) < 2 ^ bits :=
      lt_of_lt_of_le k3 (mono _ (by omega))
    have h3 := unpackTexel_natCast bits r g b a _ hr hg hb ha hw
    rw [horner_mod _ _ r hx, horner_div _ _ r hx, horner_mod _ _ g hy, horner_div _ _ g hy,
      horner_mod _ _ b hz, horner_div _ _ b hz, Nat.mod_eq_of_lt hm] at h3
    simpa using h3

/-- Witness of C1: the RGB565-like format on a 16-bit word at
the coordinate `(3, 4, 5, 1, 2)`. -/
theorem packed_round_trip_witness :
    ∃ w, (PackedValidationTextureFormat.mk 16 5 6 5 0).initializeTexel 3 4 5 1 2 = some w ∧
      (PackedValidationTextureFormat.mk 16 5 6 5 0).unpackTexel w = some [4, 6, 5, 0] :=
  (packed_round_trip 16 5 6 5 0 3 4 5 1 2 (by decide) (by decide) (by decide) (by decide)
    (by decide)).1 rfl (by decide) (by decide) (by decide)

/-- For a storage type of at most 32 bits, a value that fits a shiftable field is in
the range of `int`. -/
theorem fits_int (bits k v : Nat) (hk : k < promotedBits bits) (hb : bits ≤ 32)
    (hv : v < 2 ^ k) : v < 2 ^ 31 := by
  have hp : promotedBits bits = 32 := max_eq_right hb
  exact lt_of_lt_of_le hv (Nat.pow_le_pow_right (by norm_num) (by omega))

/-- C3 (as stated, refuted), at two inputs whose field values fit their widths.
With the 32-bit storage type and the widths `(32, 0, 0, 0)` the statement
`temp <<= rBits` shifts by the full width of `T` and stores no word. With a
64-bit storage type and the widths `(40, 10, 10, 0)` the sum `x + mipLevel` of
`x = mipLevel = 2^30` leaves the range of `int`; the word stored is
`2^64 - 2^31`, not `2^31`. -/
theorem packed_three_channel_layout_counterexample :
    (((32 : Int) + 0 + 0 ≤ 32 ∧ (1 : Int) + 0 < 2 ^ 32 ∧ (0 : Int) + 0 < 2 ^ 0 ∧
        (0 : Int) < 2 ^ 0) ∧
      (PackedValidationTextureFormat.mk 32 32 0 0 0).initializeTexel 1 0 0 0 0 = none ∧
      (PackedValidationTextureFormat.mk 32 32 0 0 0).initializeTexel 1 0 0 0 0 ≠
        some ((1 + 0) + (0 + 0) * 2 ^ 32 + 0 * 2 ^ (32 + 0))) ∧
    (((40 : Int) + 10 + 10 ≤ 64 ∧ (2 ^ 30 : Int) + 2 ^ 30 < 2 ^ 40 ∧ (0 : Int) + 0 < 2 ^ 10 ∧
        (0 : Int) < 2 ^ 10) ∧
      (PackedValidationTextureFormat.mk 64 40 10 10 0).initializeTexel (2 ^ 30) 0 0 (2 ^ 30) 0 =
        some (2 ^ 64 - 2 ^ 31) ∧
      (PackedValidationTextureFormat.mk 64 40 10 10 0).initializeTexel (2 ^ 30) 0 0 (2 ^ 30) 0 ≠
        some ((2 ^ 30 + 2 ^ 30) + (0 + 0) * 2 ^ 40 + 0 * 2 ^ (40 + 10))) := by
  decide

/-- C3 (amended): for a format with `aBits = 0` and non-negative coordinates
whose field values fit (`x+mipLevel < 2^rBits`, `y+arrayLayer < 2^gBits`,
`z < 2^bBits`, `rBits+gBits+bBits` at most the bit width of `T`), provided that
`rBits` and `gBits` are smaller than the promoted width `max 32 bits` of the
shifted operand and, for a storage type wider than 32 bits, that `x+mipLevel` and
`y+arrayLayer` do not exceed `INT_MAX`, `initializeTexel` stores the word
`(x+mipLevel) + (y+arrayLayer)*2^rBits + z*2^(rBits+gBits)`. -/
theorem packed_three_channel_layout (bits r g b x y z m l : Nat)
    (hsum : r + g + b ≤ bits)
    (hr : r < promotedBits bits) (hg : g < promotedBits bits)
    (hint : bits ≤ 32 ∨ (x + m < 2 ^ 31 ∧ y + l < 2 ^ 31))
    (hx : x + m < 2 ^ r) (hy : y + l < 2 ^ g) (hz : z < 2 ^ b) :
    (PackedValidationTextureFormat.mk bits r g b 0).initializeTexel x y z m l =
      some ((x + m) + (y + l) * 2 ^ r + z * 2 ^ (r + g)) := by
  have hxi : x + m < 2 ^ 31 := by
    rcases hint with h | h
    · exact fits_int bits r _ hr h hx
    · exact h.1
  have hyi : y + l < 2 ^ 31 := by
    rcases hint with h | h
    · exact fits_int bits g _ hg h hy
    · exact h.2
  rw [initializeTexel_three bits r g b x y z m l hr hg hsum hx hy hz hxi hyi]
  congr 1
  ring

/-- Witness of C3: the RGB565-like format
`rBits=5, gBits=6, bBits=5, aBits=0` on a 16-bit word. -/
theorem packed_three_channel_layout_witness :
    (PackedValidationTextureFormat.mk 16 5 6 5 0).initializeTexel 3 4 5 1 2 =
      some ((3 + 1) + (4 + 2) * 2 ^ 5 + 5 * 2 ^ (5 + 6)) :=
  packed_three_channel_layout 16 5 6 5 3 4 5 1 2 (by decide) (by decide) (by decide)
    (Or.inl (by decide)) (by decide) (by decide) (by decide)

/-- C4 (as stated, refuted): with a 64-bit storage type and the widths
`(32, 10, 10, 12)`, the coordinate `x = arrayLayer = 2^30`, `y = z = mipLevel = 0`
has all its field values within their widths, but the sum `x + arrayLayer`
leaves the range of `int`; the word stored is `2^64 - 2^31`, not `2^31`. -/
theorem packed_four_channel_layout_counterexample :
    ((0 : Int) < 12 ∧ (32 : Int) + 10 + 10 + 12 ≤ 64 ∧ (2 ^ 30 : Int) + 2 ^ 30 < 2 ^ 32 ∧
      (0 : Int) < 2 ^ 10 ∧ (0 : Int) < 2 ^ 10 ∧ (0 : Int) < 2 ^ 12) ∧
    (PackedValidationTextureFormat.mk 64 32 10 10 12).initializeTexel (2 ^ 30) 0 0 0 (2 ^ 30) =
      some (2 ^ 64 - 2 ^ 31) ∧
    (PackedValidationTextureFormat.mk 64 32 10 10 12).initializeTexel (2 ^ 30) 0 0 0 (2 ^ 30) ≠
      some ((2 ^ 30 + 2 ^ 30) + 0 * 2 ^ 32 + 0 * 2 ^ (32 + 10) + 0 * 2 ^ (32 + 10 + 10)) := by
  decide

/-- C4 (amended): for a format with `aBits > 0` and non-negative coordinates
whose field values fit (`x+arrayLayer < 2^rBits`, `y < 2^gBits`, `z < 2^bBits`,
`mipLevel < 2^aBits`, the sum of the widths at most the bit width of `T`),
provided that, for a storage type wider than 32 bits, `x+arrayLayer` does not
exceed `INT_MAX`, `initializeTexel` stores the word
`(x+arrayLayer) + y*2^rBits + z*2^(rBits+gBits) + mipLevel*2^(rBits+gBits+bBits)`. -/
theorem packed_four_channel_layout (bits r g b a x y z m l : Nat) (ha : 0 < a)
    (hsum : r + g + b + a ≤ bits)
    (hint : bits ≤ 32 ∨ x + l < 2 ^ 31)
    (hx : x + l < 2 ^ r) (hy : y < 2 ^ g) (hz : z < 2 ^ b) (hm : m < 2 ^ a) :
    (PackedValidationTextureFormat.mk bits r g b a).initializeTexel x y z m l =
      some ((x + l) + y * 2 ^ r + z * 2 ^ (r + g) + m * 2 ^ (r + g + b)) := by
  have hxi : x + l < 2 ^ 31 := by
    rcases hint with h | h
    · exact lt_of_lt_of_le hx (Nat.pow_le_pow_right (by norm_num) (by omega))
    · exact h
  rw [initializeTexel_four bits r g b a x y z m l ha hsum hx hy hz hm hxi]
  congr 1
  ring

/-- Witness of C4: the RGB10A2-like format
`rBits=10, gBits=10, bBits=10, aBits=2` on a 32-bit word. -/
theorem packed_four_channel_layout_witness :
    (PackedValidationTextureFormat.mk 32 10 10 10 2).initializeTexel 3 4 5 1 2 =
      some ((3 + 2) + 4 * 2 ^ 10 + 5 * 2 ^ (10 + 10) + 1 * 2 ^ (10 + 10 + 10)) :=
  packed_four_channel_layout 32 10 10 10 2 3 4 5 1 2 (by decide) (by decide)
    (Or.inl (by decide)) (by decide) (by decide) (by decide) (by decide)

/-- Wrapping an intermediate sum does not change the wrapped total. -/
theorem wrapInt32_add_left (a b : Int) : wrapInt32 (wrapInt32 a + b) = wrapInt32 (a + b) := by
  unfold wrapInt32
  omega

/-- The wrap lands in the range of `int`. -/
theorem wrapInt32_range (v : Int) : -2 ^ 31 ≤ wrapInt32 v ∧ wrapInt32 v < 2 ^ 31 := by
  unfold wrapInt32
  omega

/-! ## Uniform codec -/

/-- C2: for each component count in `{1, 2, 3, 4}` and every coordinate,
`initializeTexel` returns a block whose first `componentCount` elements are the
conversions to `T` of the `int` values of the per-count formulas
(1: `x+y+z+mipLevel+arrayLayer`; 2: `x+z+arrayLayer`, `y+mipLevel`;
3: `x+mipLevel`, `y+arrayLayer`, `z`; 4: `x+arrayLayer`, `y`, `z`, `mipLevel`)
and whose other elements are unchanged. The sums are `int` sums: they are the
mathematical sums wrapped to 32 bits, hence the mathematical sums themselves
whenever these are in the range of `int`. -/
theorem uniform_initialize_formulas {T : Type} (cast : Int → T) (temp : Nat → T)
    (x y z mipLevel arrayLayer : Int) :
    (ValidationTextureFormat.mk 1).initializeTexel cast temp x y z mipLevel arrayLayer =
      some (fun i => if i = 0 then cast (wrapInt32 (x + y + z + mipLevel + arrayLayer))
        else temp i) ∧
    (ValidationTextureFormat.mk 2).initializeTexel cast temp x y z mipLevel arrayLayer =
      some (fun i => if i = 0 then cast (wrapInt32 (x + z + arrayLayer))
        else if i = 1 then cast (wrapInt32 (y + mipLevel)) else temp i) ∧
    (ValidationTextureFormat.mk 3).initializeTexel cast temp x y z mipLevel arrayLayer =
      some (fun i => if i = 0 then cast (wrapInt32 (x + mipLevel))
        else if i = 1 then cast (wrapInt32 (y + arrayLayer))
        else if i = 2 then cast z else temp i) ∧
    (ValidationTextureFormat.mk 4).initializeTexel cast temp x y z mipLevel arrayLayer =
      some (fun i => if i = 0 then cast (wrapInt32 (x + arrayLayer))
        else if i = 1 then cast y else if i = 2 then cast z
        else if i = 3 then cast mipLevel else temp i) ∧
    (∀ v : Int, -2 ^ 31 ≤ v → v < 2 ^ 31 → wrapInt32 v = v) := by
  refine ⟨?_, ?_, ?_, ?_, wrapInt32_of_range⟩
  · simp only [ValidationTextureFormat.initializeTexel, intAdd, wrapInt32_add_left, if_true]
    congr 1
  · simp [ValidationTextureFormat.initializeTexel, intAdd, wrapInt32_add_left]
    funext i
    simp only [store]
    split_ifs <;> first | rfl | omega
  · simp [ValidationTextureFormat.initializeTexel, intAdd, wrapInt32_add_left]
    funext i
    simp only [store]
    split_ifs <;> first | rfl | omega
  · simp [ValidationTextureFormat.initializeTexel, intAdd, wrapInt32_add_left]
    funext i
    simp only [store]
    split_ifs <;> first | rfl | omega

/-- Outcome number `i` of the uniform comparison. -/
theorem validateBlocksEqual_getElem {T : Type} [DecidableEq T] (componentCount : Int)
    (a e : Nat → T) (i : Nat) :
    ((ValidationTextureFormat.mk componentCount).validateBlocksEqual a e)[i]? =
      if (i : Int) < componentCount then some (decide (a i = e i)) else none := by
  unfold ValidationTextureFormat.validateBlocksEqual
  rw [List.getElem?_map]
  by_cases h : (i : Int) < componentCount
  · have h2 : i < componentCount.toNat := Int.lt_toNat.mpr h
    rw [if_pos h, List.getElem?_range h2]
    rfl
  · have h2 : ¬ i < componentCount.toNat := fun h3 => h (Int.lt_toNat.mp h3)
    rw [if_neg h, List.getElem?_eq_none (by simpa using h2)]
    rfl

/-- C5: `validateBlocksEqual` performs exactly one check for each index `i` with
`0 ≤ i < componentCount`, check `i` compares `actual[i]` with `expected[i]`, and
a check fails exactly when its index is in range and the two values differ.
Hence the comparison succeeds (every check passes) iff all `componentCount`
values are pairwise equal, and when `actual` differs from `expected` (an
initialized block, or any other) in exactly one channel `k`, the failing checks
are exactly the check of channel `k`. -/
theorem uniform_compare {T : Type} [DecidableEq T] (componentCount : Int)
    (actual expected : Nat → T) :
    ((ValidationTextureFormat.mk componentCount).validateBlocksEqual actual expected).length =
      componentCount.toNat ∧
    (∀ i : Nat, (i : Int) < componentCount →
      ((ValidationTextureFormat.mk componentCount).validateBlocksEqual actual expected)[i]? =
        some (decide (actual i = expected i))) ∧
    (∀ i : Nat,
      ((ValidationTextureFormat.mk componentCount).validateBlocksEqual actual expected)[i]? =
        some false ↔ ((i : Int) < componentCount ∧ actual i ≠ expected i)) ∧
    (((ValidationTextureFormat.mk componentCount).validateBlocksEqual actual expected).all id =
        true ↔ ∀ i : Nat, (i : Int) < componentCount → actual i = expected i) ∧
    (∀ k : Nat, (k : Int) < componentCount →
      (∀ i : Nat, (i : Int) < componentCount → (actual i ≠ expected i ↔ i = k)) →
      ∀ i : Nat,
        ((ValidationTextureFormat.mk componentCount).validateBlocksEqual actual expected)[i]? =
          some false ↔ i = k) := by
  have fails : ∀ i : Nat,
      ((ValidationTextureFormat.mk componentCount).validateBlocksEqual actual expected)[i]? =
        some false ↔ ((i : Int) < componentCount ∧ actual i ≠ expected i) := by
    intro i
    rw [validateBlocksEqual_getElem]
    by_cases h : (i : Int) < componentCount <;> simp [h]
  refine ⟨?_, ?_, fails, ?_, ?_⟩
  · simp [ValidationTextureFormat.validateBlocksEqual]
  · intro i hi
    rw [validateBlocksEqual_getElem, if_pos hi]
  · simp only [ValidationTextureFormat.validateBlocksEqual, List.all_eq_true, List.mem_map,
      List.mem_range, id]
    constructor
    · intro h i hi
      have := h (decide (actual i = expected i)) ⟨i, Int.lt_toNat.mpr hi, rfl⟩
      simpa using this
    · rintro h b ⟨i, hi, rfl⟩
      simpa using h i (Int.lt_toNat.mp hi)
  · intro k hk hone i
    rw [fails]
    constructor
    · rintro ⟨hi, hne⟩
      exact (hone i hi).mp hne
    · rintro rfl
      exact ⟨hk, (hone i hk).mpr rfl⟩

/-- Witness of C5: three channels, `actual` differing from
`expected` in channel 1 only; the only failing check is check 1. -/
theorem uniform_compare_witness :
    (((ValidationTextureFormat.mk 3).validateBlocksEqual
      (fun j : Nat => if j = 1 then 9 else j) (fun j : Nat => j))[1]? = some false ↔ 1 = 1) ∧
    (((ValidationTextureFormat.mk 3).validateBlocksEqual
      (fun j : Nat => if j = 1 then 9 else j) (fun j : Nat => j))[2]? = some false ↔ 2 = 1) :=
  have h := (uniform_compare 3 (fun j : Nat => if j = 1 then 9 else j) (fun j : Nat => j)).2.2.2.2 1
    (by decide) (by
      intro i _
      by_cases h : i = 1
      · subst h; simp
      · simp [h])
  ⟨h 1, h 2⟩

/-! ## Subresource addressing -/

/-- For a coordinate inside the extents all three assertions pass. -/
theorem getBlockAt_inRange (d : ValidationTextureData) (x y z : Int)
    (hx : 0 ≤ x ∧ x < d.extents.width) (hy : 0 ≤ y ∧ y < d.extents.height)
    (hz : 0 ≤ z ∧ z < d.extents.depth) :
    d.getBlockAt x y z =
      some (d.textureData + z * d.strides.z + y * d.strides.y + x * d.strides.x) := by
  unfold ValidationTextureData.getBlockAt
  have h1 : x ≥ 0 ∧ x < d.extents.width := hx
  have h2 : y ≥ 0 ∧ y < d.extents.height := hy
  have h3 : z ≥ 0 ∧ z < d.extents.depth := hz
  simp only [h1, h2, h3, and_self, not_true_eq_false, if_false]

/-- An assertion of `getBlockAt` fails exactly when some axis is out of range. -/
theorem getBlockAt_eq_none (d : ValidationTextureData) (x y z : Int) :
    d.getBlockAt x y z = none ↔
      ¬ (0 ≤ x ∧ x < d.extents.width ∧ 0 ≤ y ∧ y < d.extents.height ∧
        0 ≤ z ∧ z < d.extents.depth) := by
  constructor
  · intro h hr
    rw [getBlockAt_inRange d x y z ⟨hr.1, hr.2.1⟩ ⟨hr.2.2.1, hr.2.2.2.1⟩
      ⟨hr.2.2.2.2.1, hr.2.2.2.2.2⟩] at h
    cases h
  · intro h
    unfold ValidationTextureData.getBlockAt
    by_cases h1 : x ≥ 0 ∧ x < d.extents.width
    · by_cases h2 : y ≥ 0 ∧ y < d.extents.height
      · by_cases h3 : z ≥ 0 ∧ z < d.extents.depth
        · exact absurd ⟨h1.1, h1.2, h2.1, h2.2, h3.1, h3.2⟩ h
        · simp [h1, h2, h3]
      · simp [h1, h2]
    · simp [h1]

/-- With consistent pitches, a texel that precedes another in the order of
slices, rows and columns ends before the other begins. -/
theorem offset_gap (w h sx sy sz s x y z x' y' z' : Int) (hs : 0 < s) (h1 : s ≤ sx)
    (h2 : w * sx ≤ sy) (h3 : h * sy ≤ sz)
    (hx : 0 ≤ x ∧ x < w) (hy : 0 ≤ y ∧ y < h)
    (hx' : 0 ≤ x' ∧ x' < w) (hy' : 0 ≤ y' ∧ y' < h)
    (hlt : z < z' ∨ (z = z' ∧ y < y') ∨ (z = z' ∧ y = y' ∧ x < x')) :
    z * sz + y * sy + x * sx + s ≤ z' * sz + y' * sy + x' * sx := by
  have sx0 : 0 ≤ sx := by omega
  have p1 : 0 ≤ (w - 1) * sx := mul_nonneg (by omega) sx0
  have sy0 : 0 ≤ sy := by nlinarith
  have p2 : 0 ≤ (h - 1) * sy := mul_nonneg (by omega) sy0
  have sz0 : 0 ≤ sz := by nlinarith
  have a1 : 0 ≤ (w - 1 - x) * sx := mul_nonneg (by omega) sx0
  have a2 : 0 ≤ x' * sx := mul_nonneg hx'.1 sx0
  have a3 : 0 ≤ (h - 1 - y) * sy := mul_nonneg (by omega) sy0
  have a4 : 0 ≤ y' * sy := mul_nonneg hy'.1 sy0
  rcases hlt with hlt | ⟨rfl, hlt⟩ | ⟨rfl, rfl, hlt⟩
  · have a5 : 0 ≤ (z' - z - 1) * sz := mul_nonneg (by omega) sz0
    nlinarith
  · have a5 : 0 ≤ (y' - y - 1) * sy := mul_nonneg (by omega) sy0
    nlinarith
  · have a5 : 0 ≤ (x' - x - 1) * sx := mul_nonneg (by omega) sx0
    nlinarith

/-- C6: for a subresource with texel size `s > 0` and consistent pitches
(`strides.x ≥ s`, `strides.y ≥ width * strides.x`, `strides.z ≥ height * strides.y`),
two distinct coordinates inside the extents are mapped by `getBlockAt` to byte
ranges `[p, p+s)` and `[q, q+s)` that do not overlap; in particular `p ≠ q`. -/
theorem subresource_unique (d : ValidationTextureData) (s x y z x' y' z' : Int) (hs : 0 < s)
    (h1 : d.strides.x ≥ s) (h2 : d.strides.y ≥ d.extents.width * d.strides.x)
    (h3 : d.strides.z ≥ d.extents.height * d.strides.y)
    (hx : 0 ≤ x ∧ x < d.extents.width) (hy : 0 ≤ y ∧ y < d.extents.height)
    (hz : 0 ≤ z ∧ z < d.extents.depth)
    (hx' : 0 ≤ x' ∧ x' < d.extents.width) (hy' : 0 ≤ y' ∧ y' < d.extents.height)
    (hz' : 0 ≤ z' ∧ z' < d.extents.depth)
    (hne : (x, y, z) ≠ (x', y', z')) :
    ∃ p q, d.getBlockAt x y z = some p ∧ d.getBlockAt x' y' z' = some q ∧
      (p + s ≤ q ∨ q + s ≤ p) ∧ p ≠ q := by
  refine ⟨_, _, getBlockAt_inRange d x y z hx hy hz, getBlockAt_inRange d x' y' z' hx' hy' hz', ?_⟩
  have key : (z < z' ∨ (z = z' ∧ y < y') ∨ (z = z' ∧ y = y' ∧ x < x')) ∨
      (z' < z ∨ (z' = z ∧ y' < y) ∨ (z' = z ∧ y' = y ∧ x' < x)) := by
    by_contra hcon
    apply hne
    have : x = x' ∧ y = y' ∧ z = z' := by omega
    rw [this.1, this.2.1, this.2.2]
  rcases key with hlt | hlt
  · have g := offset_gap d.extents.width d.extents.height d.strides.x d.strides.y d.strides.z
      s x y z x' y' z' hs h1 h2 h3 hx hy hx' hy' hlt
    constructor
    · left; omega
    · omega
  · have g := offset_gap d.extents.width d.extents.height d.strides.x d.strides.y d.strides.z
      s x' y' z' x y z hs h1 h2 h3 hx' hy' hx hy hlt
    constructor
    · right; omega
    · omega

/-- Witness of C6: a 4 x 3 x 2 subresource of 4-byte texels
with tight pitches, at the coordinates `(3, 2, 0)` and `(0, 0, 1)`. -/
theorem subresource_unique_witness :
    ∃ p q, (ValidationTextureData.mk 1000 ⟨4, 3, 2⟩ ⟨4, 16, 48⟩).getBlockAt 3 2 0 = some p ∧
      (ValidationTextureData.mk 1000 ⟨4, 3, 2⟩ ⟨4, 16, 48⟩).getBlockAt 0 0 1 = some q ∧
      (p + 4 ≤ q ∨ q + 4 ≤ p) ∧ p ≠ q :=
  subresource_unique (ValidationTextureData.mk 1000 ⟨4, 3, 2⟩ ⟨4, 16, 48⟩) 4 3 2 0 0 0 1
    (by decide) (by decide) (by decide) (by decide) (by decide) (by decide) (by decide)
    (by decide) (by decide) (by decide) (by decide)

/-- C7: `getBlockAt` is a contract violation (an assertion fails and no address
is returned) if and only if some axis is out of range; in particular
`x = width`, `y = height`, `z = depth` and any negative coordinate are rejected. -/
theorem getBlockAt_bounds (d : ValidationTextureData) (x y z : Int) :
    (d.getBlockAt x y z = none ↔
      ¬ (0 ≤ x ∧ x < d.extents.width ∧ 0 ≤ y ∧ y < d.extents.height ∧
        0 ≤ z ∧ z < d.extents.depth)) ∧
    d.getBlockAt d.extents.width y z = none ∧
    d.getBlockAt x d.extents.height z = none ∧
    d.getBlockAt x y d.extents.depth = none ∧
    (x < 0 ∨ y < 0 ∨ z < 0 → d.getBlockAt x y z = none) := by
  refine ⟨getBlockAt_eq_none d x y z, ?_, ?_, ?_, ?_⟩
  · rw [getBlockAt_eq_none]; omega
  · rw [getBlockAt_eq_none]; omega
  · rw [getBlockAt_eq_none]; omega
  · intro h
    rw [getBlockAt_eq_none]; omega

/-- Witness of C7: a negative `y` is rejected. -/
theorem getBlockAt_bounds_witness :
    (ValidationTextureData.mk 1000 ⟨4, 3, 2⟩ ⟨4, 16, 48⟩).getBlockAt 1 (-1) 0 = none :=
  (getBlockAt_bounds (ValidationTextureData.mk 1000 ⟨4, 3, 2⟩ ⟨4, 16, 48⟩) 1 (-1) 0).2.2.2.2
    (Or.inr (Or.inl (by decide)))

/-- C8: for a coordinate inside the extents, `getBlockAt(x, y, z)` returns
`textureData + z*strides.z + y*strides.y + x*strides.x`. -/
theorem getBlockAt_address (d : ValidationTextureData) (x y z : Int)
    (hx : 0 ≤ x ∧ x < d.extents.width) (hy : 0 ≤ y ∧ y < d.extents.height)
    (hz : 0 ≤ z ∧ z < d.extents.depth) :
    d.getBlockAt x y z =
      some (d.textureData + z * d.strides.z + y * d.strides.y + x * d.strides.x) :=
  getBlockAt_inRange d x y z hx hy hz

/-- Witness of C8: the texel `(3, 2, 1)` of a 4 x 3 x 2
subresource with pitches `(4, 16, 48)` based at address 1000. -/
theorem getBlockAt_address_witness :
    (ValidationTextureData.mk 1000 ⟨4, 3, 2⟩ ⟨4, 16, 48⟩).getBlockAt 3 2 1 =
      some (1000 + 1 * 48 + 2 * 16 + 3 * 4) :=
  getBlockAt_address (ValidationTextureData.mk 1000 ⟨4, 3, 2⟩ ⟨4, 16, 48⟩) 3 2 1
    (by decide) (by decide) (by decide)

/-- C9: for a subresource with texel size `s > 0` and consistent pitches, every
coordinate inside the extents is accepted by `getBlockAt`, and its byte offset
`o = z*strides.z + y*strides.y + x*strides.x` from `textureData` satisfies
`0 ≤ o` and `o + s ≤ depth * strides.z`: the byte range of the texel stays
inside the buffer of `depth * strides.z` bytes. -/
theorem addressing_inside_subresource (d : ValidationTextureData) (s x y z : Int)
    (hs : 0 < s) (h1 : d.strides.x ≥ s) (h2 : d.strides.y ≥ d.extents.width * d.strides.x)
    (h3 : d.strides.z ≥ d.extents.height * d.strides.y)
    (hx : 0 ≤ x ∧ x < d.extents.width) (hy : 0 ≤ y ∧ y < d.extents.height)
    (hz : 0 ≤ z ∧ z < d.extents.depth) :
    d.getBlockAt x y z =
      some (d.textureData + (z * d.strides.z + y * d.strides.y + x * d.strides.x)) ∧
    0 ≤ z * d.strides.z + y * d.strides.y + x * d.strides.x ∧
    z * d.strides.z + y * d.strides.y + x * d.strides.x + s ≤
      d.extents.depth * d.strides.z := by
  have sx0 : 0 ≤ d.strides.x := by omega
  have p1 : 0 ≤ (d.extents.width - 1) * d.strides.x := mul_nonneg (by omega) sx0
  have sy0 : 0 ≤ d.strides.y := by nlinarith
  have p2 : 0 ≤ (d.extents.height - 1) * d.strides.y := mul_nonneg (by omega) sy0
  have sz0 : 0 ≤ d.strides.z := by nlinarith
  have a1 : 0 ≤ (d.extents.width - 1 - x) * d.strides.x := mul_nonneg (by omega) sx0
  have a2 : 0 ≤ (d.extents.height - 1 - y) * d.strides.y := mul_nonneg (by omega) sy0
  have a3 : 0 ≤ (d.extents.depth - 1 - z) * d.strides.z := mul_nonneg (by omega) sz0
  have b1 : 0 ≤ x * d.strides.x := mul_nonneg hx.1 sx0
  have b2 : 0 ≤ y * d.strides.y := mul_nonneg hy.1 sy0
  have b3 : 0 ≤ z * d.strides.z := mul_nonneg hz.1 sz0
  refine ⟨?_, by omega, by nlinarith⟩
  rw [getBlockAt_inRange d x y z hx hy hz]
  congr 1
  ring

/-- Witness of C9: the last texel `(3, 2, 1)` of a
4 x 3 x 2 subresource of 4-byte texels ends exactly at the end of the buffer. -/
theorem addressing_inside_subresource_witness :
    (ValidationTextureData.mk 1000 ⟨4, 3, 2⟩ ⟨4, 16, 48⟩).getBlockAt 3 2 1 =
      some (1000 + (1 * 48 + 2 * 16 + 3 * 4)) ∧
    (0 : Int) ≤ 1 * 48 + 2 * 16 + 3 * 4 ∧ (1 : Int) * 48 + 2 * 16 + 3 * 4 + 4 ≤ 2 * 48 :=
  addressing_inside_subresource (ValidationTextureData.mk 1000 ⟨4, 3, 2⟩ ⟨4, 16, 48⟩) 4 3 2 1
    (by decide) (by decide) (by decide) (by decide) (by decide) (by decide) (by decide)

/-! ## Coordinate sensitivity of the uniform codec -/

/-- C10 (as stated, refuted): with `T = uint8_t` (the conversion keeps the low 8
bits) and four components, the coordinates `(0, 0, 0, 0, 0)` and
`(256, 0, 0, 0, 0)` differ in `x` only, yet the two blocks written agree in all
four emitted channels. -/
theorem uniform_coordinate_sensitivity_counterexample :
    (0 : Int) ≠ 256 ∧
    ∃ blk blk' : Nat → Int,
      (ValidationTextureFormat.mk 4).initializeTexel (fun v => v % 2 ^ 8) (fun _ => 0)
        0 0 0 0 0 = some blk ∧
      (ValidationTextureFormat.mk 4).initializeTexel (fun v => v % 2 ^ 8) (fun _ => 0)
        256 0 0 0 0 = some blk' ∧
      ∀ i : Nat, (i : Int) < 4 → blk i = blk' i := by
  refine ⟨by decide, _, _, rfl, rfl, ?_⟩
  intro i hi
  have h4 : i < 4 := by omega
  interval_cases i <;> decide

/-- The blocks differ in an emitted channel iff the one channel that can differ
does: it holds the conversions of `u` and `v`. -/
theorem differ_iff_channel {T : Type} (cast : Int → T) (componentCount : Int)
    (blk blk' : Nat → T) (k : Nat) (u v : Int) (hk : (k : Int) < componentCount)
    (hb : blk k = cast u) (hb' : blk' k = cast v)
    (hoth : ∀ i : Nat, (i : Int) < componentCount → i ≠ k → blk i = blk' i) :
    (∃ i : Nat, (i : Int) < componentCount ∧ blk i ≠ blk' i) ↔ cast u ≠ cast v := by
  constructor
  · rintro ⟨i, hi, hne⟩
    by_cases hik : i = k
    · subst hik
      rwa [hb, hb'] at hne
    · exact absurd (hoth i hi hik) hne
  · intro h
    exact ⟨k, hk, by rwa [hb, hb']⟩

/-- C10 (amended): for every component count in `{1, 2, 3, 4}` and every two
coordinate tuples of `int` values that differ in exactly one of `x`, `y`, `z`,
`mipLevel`, `arrayLayer`, exactly one emitted channel `k` carries the changed
coordinate: its `int` values `u` and `v` for the two tuples differ, the blocks
written hold `T(u)` and `T(v)` there, and all other emitted channels agree.
Hence the blocks differ in at least one emitted channel if and only if the
conversion to `T` maps `u` and `v` to different values, as it does whenever it
is injective on a range that contains both. -/
theorem uniform_coordinate_sensitivity {T : Type} (cast : Int → T) (componentCount : Int)
    (hcc : componentCount = 1 ∨ componentCount = 2 ∨ componentCount = 3 ∨ componentCount = 4)
    (x y z m l x' y' z' m' l' : Int)
    (hrange : ∀ c ∈ [x, y, z, m, l, x', y', z', m', l'], -2 ^ 31 ≤ c ∧ c < 2 ^ 31)
    (hdiff : (x ≠ x' ∧ y = y' ∧ z = z' ∧ m = m' ∧ l = l') ∨
      (x = x' ∧ y ≠ y' ∧ z = z' ∧ m = m' ∧ l = l') ∨
      (x = x' ∧ y = y' ∧ z ≠ z' ∧ m = m' ∧ l = l') ∨
      (x = x' ∧ y = y' ∧ z = z' ∧ m ≠ m' ∧ l = l') ∨
      (x = x' ∧ y = y' ∧ z = z' ∧ m = m' ∧ l ≠ l'))
    (temp temp' : Nat → T) :
    ∃ (blk blk' : Nat → T) (k : Nat) (u v : Int),
      (ValidationTextureFormat.mk componentCount).initializeTexel cast temp x y z m l =
        some blk ∧
      (ValidationTextureFormat.mk componentCount).initializeTexel cast temp' x' y' z' m' l' =
        some blk' ∧
      (k : Int) < componentCount ∧
      (k, u) ∈ (ValidationTextureFormat.mk componentCount).initializeTexelStores
        (fun w : Int => w) x y z m l ∧
      (k, v) ∈ (ValidationTextureFormat.mk componentCount).initializeTexelStores
        (fun w : Int => w) x' y' z' m' l' ∧
      u ≠ v ∧ blk k = cast u ∧ blk' k = cast v ∧
      (∀ i : Nat, (i : Int) < componentCount → i ≠ k → blk i = blk' i) ∧
      ((∃ i : Nat, (i : Int) < componentCount ∧ blk i ≠ blk' i) ↔ cast u ≠ cast v) := by
  have hx := hrange x (by simp)
  have hy := hrange y (by simp)
  have hz := hrange z (by simp)
  have hm := hrange m (by simp)
  have hl := hrange l (by simp)
  have hx' := hrange x' (by simp)
  have hy' := hrange y' (by simp)
  have hz' := hrange z' (by simp)
  have hm' := hrange m' (by simp)
  have hl' := hrange l' (by simp)
  clear hrange
  rcases hcc with rfl | rfl | rfl | rfl <;>
  rcases hdiff with ⟨hd, rfl, rfl, rfl, rfl⟩ | ⟨rfl, hd, rfl, rfl, rfl⟩ |
    ⟨rfl, rfl, hd, rfl, rfl⟩ | ⟨rfl, rfl, rfl, hd, rfl⟩ | ⟨rfl, rfl, rfl, rfl, hd⟩ <;>
  first
  | (refine ⟨_, _, 0, _, _, rfl, rfl, by decide, ?_, ?_, ?_, rfl, rfl, ?_⟩
     rotate_left 2
     · first
       | exact hd
       | (simp only [intAdd, wrapInt32_add_left]
          unfold wrapInt32
          omega)
     · refine (fun hoth => ⟨hoth, differ_iff_channel cast _ _ _ 0 _ _ (by decide) rfl rfl hoth⟩) ?_
       intro i hi hik
       have h4 : i < 4 := by omega
       interval_cases i <;> first | rfl | (exfalso; omega)
     · simp [ValidationTextureFormat.initializeTexelStores]
     · simp [ValidationTextureFormat.initializeTexelStores])
  | (refine ⟨_, _, 1, _, _, rfl, rfl, by decide, ?_, ?_, ?_, rfl, rfl, ?_⟩
     rotate_left 2
     · first
       | exact hd
       | (simp only [intAdd, wrapInt32_add_left]
          unfold wrapInt32
          omega)
     · refine (fun hoth => ⟨hoth, differ_iff_channel cast _ _ _ 1 _ _ (by decide) rfl rfl hoth⟩) ?_
       intro i hi hik
       have h4 : i < 4 := by omega
       interval_cases i <;> first | rfl | (exfalso; omega)
     · simp [ValidationTextureFormat.initializeTexelStores]
     · simp [ValidationTextureFormat.initializeTexelStores])
  | (refine ⟨_, _, 2, _, _, rfl, rfl, by decide, ?_, ?_, ?_, rfl, rfl, ?_⟩
     rotate_left 2
     · exact hd
     · refine (fun hoth => ⟨hoth, differ_iff_channel cast _ _ _ 2 _ _ (by decide) rfl rfl hoth⟩) ?_
       intro i hi hik
       have h4 : i < 4 := by omega
       interval_cases i <;> first | rfl | (exfalso; omega)
     · simp [ValidationTextureFormat.initializeTexelStores]
     · simp [ValidationTextureFormat.initializeTexelStores])
  | (refine ⟨_, _, 3, _, _, rfl, rfl, by decide, ?_, ?_, ?_, rfl, rfl, ?_⟩
     rotate_left 2
     · exact hd
     · refine (fun hoth => ⟨hoth, differ_iff_channel cast _ _ _ 3 _ _ (by decide) rfl rfl hoth⟩) ?_
       intro i hi hik
       have h4 : i < 4 := by omega
       interval_cases i <;> first | rfl | (exfalso; omega)
     · simp [ValidationTextureFormat.initializeTexelStores]
     · simp [ValidationTextureFormat.initializeTexelStores])

/-- Witness of C10: `T = uint8_t`, four components, two coordinates that differ
in `y` only; the sum of the coordinates exceeds 255 but no channel does. -/
theorem uniform_coordinate_sensitivity_witness :
    ∃ (blk blk' : Nat → Int) (k : Nat) (u v : Int),
      (ValidationTextureFormat.mk 4).initializeTexel (fun w => w % 256) (fun _ => 0)
        200 100 0 0 0 = some blk ∧
      (ValidationTextureFormat.mk 4).initializeTexel (fun w => w % 256) (fun _ => 0)
        200 101 0 0 0 = some blk' ∧
      (k : Int) < 4 ∧
      (k, u) ∈ (ValidationTextureFormat.mk 4).initializeTexelStores
        (fun w : Int => w) 200 100 0 0 0 ∧
      (k, v) ∈ (ValidationTextureFormat.mk 4).initializeTexelStores
        (fun w : Int => w) 200 101 0 0 0 ∧
      u ≠ v ∧ blk k = (fun w => w % 256) u ∧ blk' k = (fun w => w % 256) v ∧
      (∀ i : Nat, (i : Int) < 4 → i ≠ k → blk i = blk' i) ∧
      ((∃ i : Nat, (i : Int) < 4 ∧ blk i ≠ blk' i) ↔
        (fun w : Int => w % 256) u ≠ (fun w : Int => w % 256) v) :=
  uniform_coordinate_sensitivity (fun w => w % 256) 4 (by decide)
    200 100 0 0 0 200 101 0 0 0 (by decide) (by decide) (fun _ => 0) (fun _ => 0)

/-! ## Abort on an unsupported component count -/

/-- The block returned by the uniform `initializeTexel` is the prior block with
the stores of the call applied in order; the call aborts exactly when the
component count is none of 1, 2, 3, 4. -/
theorem initializeTexel_eq_stores {T : Type} (cast : Int → T) (componentCount : Int)
    (temp : Nat → T) (x y z m l : Int) :
    (ValidationTextureFormat.mk componentCount).initializeTexel cast temp x y z m l =
      if componentCount = 1 ∨ componentCount = 2 ∨ componentCount = 3 ∨ componentCount = 4 then
        some (((ValidationTextureFormat.mk componentCount).initializeTexelStores cast
          x y z m l).foldl (fun blk p => store blk p.1 p.2) temp)
      else none := by
  unfold ValidationTextureFormat.initializeTexel ValidationTextureFormat.initializeTexelStores
  by_cases h1 : componentCount = 1
  · simp [h1]
  · by_cases h2 : componentCount = 2
    · simp [h2]
    · by_cases h3 : componentCount = 3
      · simp [h3]
      · by_cases h4 : componentCount = 4
        · simp [h4]
        · simp [h1, h2, h3, h4]

/-- C11: `ValidationTextureFormat<T>::initializeTexel` aborts if and only if
`componentCount` is not one of 1, 2, 3, 4; when it aborts it has performed no
store into the block; for a component count in `{1, 2, 3, 4}` it does not abort
and returns the prior block with its stores applied. -/
theorem unsupported_component_count_fatal {T : Type} (cast : Int → T) (componentCount : Int)
    (temp : Nat → T) (x y z m l : Int) :
    ((ValidationTextureFormat.mk componentCount).initializeTexel cast temp x y z m l = none ↔
      ¬ (componentCount = 1 ∨ componentCount = 2 ∨ componentCount = 3 ∨ componentCount = 4)) ∧
    (¬ (componentCount = 1 ∨ componentCount = 2 ∨ componentCount = 3 ∨ componentCount = 4) →
      (ValidationTextureFormat.mk componentCount).initializeTexelStores cast x y z m l = []) ∧
    ((componentCount = 1 ∨ componentCount = 2 ∨ componentCount = 3 ∨ componentCount = 4) →
      (ValidationTextureFormat.mk componentCount).initializeTexel cast temp x y z m l =
        some (((ValidationTextureFormat.mk componentCount).initializeTexelStores cast
          x y z m l).foldl (fun blk p => store blk p.1 p.2) temp)) := by
  refine ⟨?_, ?_, ?_⟩
  · rw [initializeTexel_eq_stores]
    by_cases h : componentCount = 1 ∨ componentCount = 2 ∨ componentCount = 3 ∨ componentCount = 4
    · simp [h]
    · simp [h]
  · intro h
    have h1 : ¬ componentCount = 1 := fun e => h (Or.inl e)
    have h2 : ¬ componentCount = 2 := fun e => h (Or.inr (Or.inl e))
    have h3 : ¬ componentCount = 3 := fun e => h (Or.inr (Or.inr (Or.inl e)))
    have h4 : ¬ componentCount = 4 := fun e => h (Or.inr (Or.inr (Or.inr e)))
    simp [ValidationTextureFormat.initializeTexelStores, h1, h2, h3, h4]
  · intro h
    rw [initializeTexel_eq_stores, if_pos h]

/-- Witness of C11: a component count of 5 aborts without a store, a component
count of 2 does not abort. -/
theorem unsupported_component_count_fatal_witness :
    (ValidationTextureFormat.mk 5).initializeTexelStores (fun v : Int => v) 1 2 3 4 5 = [] ∧
    (ValidationTextureFormat.mk 2).initializeTexel (fun v : Int => v) (fun _ => 0) 1 2 3 4 5 =
      some (((ValidationTextureFormat.mk 2).initializeTexelStores (fun v : Int => v)
        1 2 3 4 5).foldl (fun blk p => store blk p.1 p.2) (fun _ => 0)) :=
  ⟨(unsupported_component_count_fatal (fun v : Int => v) 5 (fun _ => 0) 1 2 3 4 5).2.1
      (by decide),
    (unsupported_component_count_fatal (fun v : Int => v) 2 (fun _ => 0) 1 2 3 4 5).2.2
      (by decide)⟩

/-! ## Packed codec: unpacking and comparison -/

/-- C16: for every storage word `t` and bit widths each smaller than the 32-bit
width of the `int` mask, `unpackTexel` returns `out[0] = t mod 2^rBits`,
`out[1] = (t >> rBits) mod 2^gBits`, `out[2] = (t >> (rBits+gBits)) mod 2^bBits`,
`out[3] = (t >> (rBits+gBits+bBits)) mod 2^aBits`; a field of width 0 is 0. -/
theorem unpack_definition (bits r g b a t : Nat) (hr : r < 32) (hg : g < 32) (hb : b < 32)
    (ha : a < 32) (ht : t < 2 ^ bits) :
    (PackedValidationTextureFormat.mk bits r g b a).unpackTexel t =
      some [t % 2 ^ r, (t >>> r) % 2 ^ g, (t >>> (r + g)) % 2 ^ b,
        (t >>> (r + g + b)) % 2 ^ a] ∧
    (r = 0 → t % 2 ^ r = 0) ∧ (g = 0 → (t >>> r) % 2 ^ g = 0) ∧
    (b = 0 → (t >>> (r + g)) % 2 ^ b = 0) ∧ (a = 0 → (t >>> (r + g + b)) % 2 ^ a = 0) := by
  refine ⟨?_, ?_, ?_, ?_, ?_⟩
  · rw [unpackTexel_natCast bits r g b a t hr hg hb ha ht]
    simp only [Nat.shiftRight_eq_div_pow, pow_add, Nat.div_div_eq_div_mul]
  all_goals
    intro h
    subst h
    simp [Nat.mod_one]

/-- Witness of C16: the RGB10A2-like format on a 32-bit word. -/
theorem unpack_definition_witness :
    (PackedValidationTextureFormat.mk 32 10 10 10 2).unpackTexel 1078988805 =
      some [1078988805 % 2 ^ 10, (1078988805 >>> 10) % 2 ^ 10,
        (1078988805 >>> (10 + 10)) % 2 ^ 10, (1078988805 >>> (10 + 10 + 10)) % 2 ^ 2] :=
  (unpack_definition 32 10 10 10 2 1078988805 (by decide) (by decide) (by decide) (by decide)
    (by decide)).1

/-- Whenever `unpackTexel` returns, it has written the four components. -/
theorem unpackTexel_length (fmt : PackedValidationTextureFormat) (t : Nat) (u : List Nat)
    (h : fmt.unpackTexel t = some u) : u.length = 4 := by
  simp only [PackedValidationTextureFormat.unpackTexel, Option.bind_eq_bind,
    Option.bind_eq_some, Option.pure_def, Option.some.injEq, bind, pure] at h
  obtain ⟨o0, -, t1, -, o1, -, t2, -, o2, -, t3, -, o3, -, t4, -, rfl⟩ := h
  rfl

/-- The packed comparison in terms of the two unpacked arrays. -/
theorem validateBlocksEqual_of_unpack (fmt : PackedValidationTextureFormat)
    (actual expected : Nat) (ua ue : List Nat) (ha : fmt.unpackTexel actual = some ua)
    (he : fmt.unpackTexel expected = some ue) :
    fmt.validateBlocksEqual actual expected =
      some ((List.range 4).map (fun i => decide (ua.getD i 0 = ue.getD i 0))) := by
  simp only [PackedValidationTextureFormat.validateBlocksEqual, ha, he, Option.bind_eq_bind,
    Option.some_bind, Option.pure_def, bind, pure]

/-- The packed comparison has no result exactly when one of the two words
cannot be unpacked. -/
theorem validateBlocksEqual_eq_none (fmt : PackedValidationTextureFormat)
    (actual expected : Nat) :
    fmt.validateBlocksEqual actual expected = none ↔
      (fmt.unpackTexel actual = none ∨ fmt.unpackTexel expected = none) := by
  cases ha : fmt.unpackTexel actual with
  | none => simp [PackedValidationTextureFormat.validateBlocksEqual, ha, bind]
  | some ua =>
    cases he : fmt.unpackTexel expected with
    | none => simp [PackedValidationTextureFormat.validateBlocksEqual, ha, he, bind]
    | some ue => simp [validateBlocksEqual_of_unpack fmt actual expected ua ue ha he]

/-- Outcome number `k` of four checks on two arrays. -/
theorem fourChecks_getElem (ua ue : List Nat) (k : Nat) :
    ((List.range 4).map (fun i => decide (ua.getD i 0 = ue.getD i 0)))[k]? =
      if k < 4 then some (decide (ua.getD k 0 = ue.getD k 0)) else none := by
  rw [List.getElem?_map]
  by_cases h : k < 4
  · rw [if_pos h, List.getElem?_range h]
    rfl
  · rw [if_neg h, List.getElem?_eq_none (by simpa using h)]
    rfl

/-- Unpacking is defined for widths in `[0, 32)`. -/
theorem unpackTexel_defined (fmt : PackedValidationTextureFormat) (t : Nat)
    (hr : 0 ≤ fmt.rBits ∧ fmt.rBits < 32) (hg : 0 ≤ fmt.gBits ∧ fmt.gBits < 32)
    (hb : 0 ≤ fmt.bBits ∧ fmt.bBits < 32) (ha : 0 ≤ fmt.aBits ∧ fmt.aBits < 32)
    (ht : t < 2 ^ fmt.bits) :
    fmt.unpackTexel t =
      some [t % 2 ^ fmt.rBits.toNat, t / 2 ^ fmt.rBits.toNat % 2 ^ fmt.gBits.toNat,
        t / 2 ^ fmt.rBits.toNat / 2 ^ fmt.gBits.toNat % 2 ^ fmt.bBits.toNat,
        t / 2 ^ fmt.rBits.toNat / 2 ^ fmt.gBits.toNat / 2 ^ fmt.bBits.toNat %
          2 ^ fmt.aBits.toNat] := by
  obtain ⟨bits, r, g, b, a⟩ := fmt
  simp only at hr hg hb ha ht ⊢
  obtain ⟨r, rfl⟩ := Int.eq_ofNat_of_zero_le hr.1
  obtain ⟨g, rfl⟩ := Int.eq_ofNat_of_zero_le hg.1
  obtain ⟨b, rfl⟩ := Int.eq_ofNat_of_zero_le hb.1
  obtain ⟨a, rfl⟩ := Int.eq_ofNat_of_zero_le ha.1
  simp only [Int.toNat_natCast]
  exact unpackTexel_natCast bits r g b a t (by omega) (by omega) (by omega) (by omega) ht

/-- C17: `PackedValidationTextureFormat::validateBlocksEqual` unpacks both
words and performs four checks, one per field r, g, b, a; check `k` fails
exactly when `unpackTexel(actual)[k] != unpackTexel(expected)[k]`, so the
comparison succeeds iff all four unpacked fields are pairwise equal. The
comparison has a result exactly when both words can be unpacked, which is the
case for widths in `[0, 32)`. -/
theorem packed_compare (fmt : PackedValidationTextureFormat) (actual expected : Nat) :
    (∀ ua ue : List Nat, fmt.unpackTexel actual = some ua → fmt.unpackTexel expected = some ue →
      ∃ checks : List Bool, fmt.validateBlocksEqual actual expected = some checks ∧
        checks.length = 4 ∧ ua.length = 4 ∧ ue.length = 4 ∧
        (∀ k : Nat, checks[k]? = some false ↔ (k < 4 ∧ ua.getD k 0 ≠ ue.getD k 0)) ∧
        (checks.all id = true ↔ ∀ k : Nat, k < 4 → ua.getD k 0 = ue.getD k 0) ∧
        (checks.all id = true ↔ ua = ue)) ∧
    (fmt.validateBlocksEqual actual expected = none ↔
      (fmt.unpackTexel actual = none ∨ fmt.unpackTexel expected = none)) ∧
    ((0 ≤ fmt.rBits ∧ fmt.rBits < 32) → (0 ≤ fmt.gBits ∧ fmt.gBits < 32) →
      (0 ≤ fmt.bBits ∧ fmt.bBits < 32) → (0 ≤ fmt.aBits ∧ fmt.aBits < 32) →
      actual < 2 ^ fmt.bits → expected < 2 ^ fmt.bits →
      ∃ checks : List Bool, fmt.validateBlocksEqual actual expected = some checks ∧
        checks.length = 4) := by
  refine ⟨?_, validateBlocksEqual_eq_none fmt actual expected, ?_⟩
  · intro ua ue ha he
    have la := unpackTexel_length fmt actual ua ha
    have le := unpackTexel_length fmt expected ue he
    have hall : ((List.range 4).map (fun i => decide (ua.getD i 0 = ue.getD i 0))).all id = true ↔
        ∀ k : Nat, k < 4 → ua.getD k 0 = ue.getD k 0 := by
      simp only [List.all_eq_true, List.mem_map, List.mem_range, id]
      constructor
      · intro h k hk
        have := h (decide (ua.getD k 0 = ue.getD k 0)) ⟨k, hk, rfl⟩
        simpa using this
      · rintro h b ⟨k, hk, rfl⟩
        simpa using h k hk
    refine ⟨_, validateBlocksEqual_of_unpack fmt actual expected ua ue ha he, by simp, la, le,
      ?_, hall, ?_⟩
    · intro k
      rw [fourChecks_getElem]
      by_cases h : k < 4 <;> simp [h]
    · rw [hall]
      constructor
      · intro h
        apply List.ext_getElem (by omega)
        intro k h1 h2
        have := h k (by omega)
        rw [List.getD_eq_getElem _ _ h1, List.getD_eq_getElem _ _ h2] at this
        exact this
      · rintro rfl k _
        rfl
  · intro hr hg hb ha hta hte
    refine ⟨_, validateBlocksEqual_of_unpack fmt actual expected _ _
      (unpackTexel_defined fmt actual hr hg hb ha hta)
      (unpackTexel_defined fmt expected hr hg hb ha hte), by simp⟩

/-- Witness of C17: the RGB565-like format; the words 10436 and 10437 differ in
the red field only. -/
theorem packed_compare_witness :
    ∃ checks : List Bool,
      (PackedValidationTextureFormat.mk 16 5 6 5 0).validateBlocksEqual 10436 10437 =
        some checks ∧ checks.length = 4 :=
  (packed_compare (PackedValidationTextureFormat.mk 16 5 6 5 0) 10436 10437).2.2
    (by decide) (by decide) (by decide) (by decide) (by decide) (by decide)

/-! ## Bit-level lemmas for truncated packing -/

/-- Truncation to the low `n` bits distributes over bitwise or. -/
theorem or_mod_pow (a b n : Nat) : (a ||| b) % 2 ^ n = a % 2 ^ n ||| b % 2 ^ n := by
  apply Nat.eq_of_testBit_eq
  intro i
  simp only [Nat.testBit_mod_two_pow, Nat.testBit_or]
  cases decide (i < n) <;> simp

/-- Truncating before a left shift does not change the truncated result. -/
theorem shl_mod_pow (t n w : Nat) : ((t % 2 ^ w) <<< n) % 2 ^ w = (t <<< n) % 2 ^ w := by
  apply Nat.eq_of_testBit_eq
  intro i
  simp only [Nat.testBit_mod_two_pow, Nat.testBit_shiftLeft]
  by_cases h1 : i < w <;> by_cases h2 : i ≥ n <;> simp [h1, h2]
  intro _
  omega

/-- The low `n` bits of a word built by shift-and-or are the low bits of the
value or-ed in. -/
theorem or_shift_mod (t f n : Nat) : ((t <<< n) ||| f) % 2 ^ n = f % 2 ^ n := by
  apply Nat.eq_of_testBit_eq
  intro i
  simp only [Nat.testBit_mod_two_pow, Nat.testBit_or, Nat.testBit_shiftLeft]
  by_cases h1 : i < n <;> simp [h1]

/-- The bits above the low `n` bits of a word built by shift-and-or: the shifted
word or-ed with the overflow of the value or-ed in. -/
theorem or_shift_shr (t f n : Nat) : ((t <<< n) ||| f) >>> n = t ||| (f >>> n) := by
  apply Nat.eq_of_testBit_eq
  intro i
  simp [Nat.testBit_shiftRight, Nat.testBit_or, Nat.testBit_shiftLeft]

/-- A field of a truncated word is the same field of the untruncated word when
it lies below the truncation. -/
theorem mod_shr_mod (t n k w : Nat) (h : n + k ≤ w) :
    ((t % 2 ^ w) >>> n) % 2 ^ k = (t >>> n) % 2 ^ k := by
  apply Nat.eq_of_testBit_eq
  intro i
  simp only [Nat.testBit_mod_two_pow, Nat.testBit_shiftRight]
  by_cases h1 : i < k <;> simp [h1]
  omega

/-- A converted value is a value of the storage type. -/
theorem toStorage_lt (bits : Nat) (v : Int) : toStorage bits v < 2 ^ bits := by
  unfold toStorage
  have hpos : (0 : Int) < 2 ^ bits := by positivity
  have h1 := Int.emod_nonneg v (ne_of_gt hpos)
  have h2 := Int.emod_lt_of_pos v hpos
  have h3 : ((2 ^ bits : Nat) : Int) = 2 ^ bits := by push_cast; rfl
  omega

/-- The result of `temp |= v` is a value of the storage type. -/
theorem orAssign_lt (bits t : Nat) (v : Int) : orAssign bits t v < 2 ^ bits :=
  Nat.mod_lt _ (Nat.two_pow_pos bits)

/-- Or-ing into the zero word stores the converted value. -/
theorem orAssign_zero_int (bits : Nat) (v : Int) : orAssign bits 0 v = toStorage bits v := by
  unfold orAssign
  rw [Nat.zero_or, Nat.mod_eq_of_lt (toStorage_lt bits v)]

/-- A left shift within the promoted width keeps the low `bits` bits of the
shifted word. -/
theorem shlAssign_trunc (bits t n : Nat) (hn : n < promotedBits bits) :
    shlAssign bits t (n : Int) = some ((t <<< n) % 2 ^ bits) := by
  unfold shlAssign
  have h1 : (0 : Int) ≤ (n : Int) ∧ (n : Int) < (promotedBits bits : Int) := by
    constructor <;> omega
  rw [if_pos h1, Int.toNat_natCast]

/-- One shift-and-or step on a truncated word is the truncation of the step on
the untruncated word. -/
theorem orAssign_shl (bits t n : Nat) (v : Int) :
    orAssign bits (((t % 2 ^ bits) <<< n) % 2 ^ bits) v =
      ((t <<< n) ||| toStorage bits v) % 2 ^ bits := by
  unfold orAssign
  rw [shl_mod_pow, or_mod_pow, Nat.mod_mod, ← or_mod_pow]

/-- The word stored by the branch `aBits == 0` for arbitrary coordinates: the low
`bits` bits of the shift-and-or packing of the converted field values. -/
theorem initializeTexel_three_trunc (bits r g : Nat) (b : Int) (x y z m l : Int)
    (hr : r < promotedBits bits) (hg : g < promotedBits bits) :
    (PackedValidationTextureFormat.mk bits r g b 0).initializeTexel x y z m l =
      some ((((toStorage bits z <<< g) ||| toStorage bits (intAdd y l)) <<< r |||
        toStorage bits (intAdd x m)) % 2 ^ bits) := by
  have e1 : toStorage bits z = toStorage bits z % 2 ^ bits :=
    (Nat.mod_eq_of_lt (toStorage_lt bits z)).symm
  simp only [PackedValidationTextureFormat.initializeTexel, if_true, orAssign_zero_int,
    shlAssign_trunc bits _ g hg, shlAssign_trunc bits _ r hr,
    Option.bind_eq_bind, Option.some_bind, Option.pure_def, bind, pure]
  rw [e1, orAssign_shl, orAssign_shl, ← e1]

/-- The word stored by the branch `aBits != 0` for arbitrary coordinates: the low
`bits` bits of the shift-and-or packing of the converted field values. -/
theorem initializeTexel_four_trunc (bits r g b : Nat) (a : Int) (x y z m l : Int) (ha : a ≠ 0)
    (hr : r < promotedBits bits) (hg : g < promotedBits bits) (hb : b < promotedBits bits) :
    (PackedValidationTextureFormat.mk bits r g b a).initializeTexel x y z m l =
      some ((((((toStorage bits m <<< b) ||| toStorage bits z) <<< g) ||| toStorage bits y) <<< r |||
        toStorage bits (intAdd x l)) % 2 ^ bits) := by
  have e1 : toStorage bits m = toStorage bits m % 2 ^ bits :=
    (Nat.mod_eq_of_lt (toStorage_lt bits m)).symm
  simp only [PackedValidationTextureFormat.initializeTexel, if_neg ha, orAssign_zero_int,
    shlAssign_trunc bits _ b hb, shlAssign_trunc bits _ g hg, shlAssign_trunc bits _ r hr,
    Option.bind_eq_bind, Option.some_bind, Option.pure_def, bind, pure]
  rw [e1, orAssign_shl, orAssign_shl, orAssign_shl, ← e1]

/-! ## Over-wide packed configurations -/

/-- C15 (as stated, refuted): the widths `(8, 8, 8, 0)` sum to 24, more than the
16 bits of the storage type, yet the format is constructed and `initializeTexel`
returns a word for the coordinate `(1, 1, 1, 0, 0)`: the word is `2^8 + 1`, the
blue field, which would start at bit 16, is dropped silently. -/
theorem overwide_configuration_counterexample :
    (16 : Int) < 8 + 8 + 8 + 0 ∧
    (PackedValidationTextureFormat.mk 16 8 8 8 0).initializeTexel 1 1 1 0 0 = some (2 ^ 8 + 1) ∧
    (PackedValidationTextureFormat.mk 16 8 8 8 0).initializeTexel 1 1 1 0 0 ≠ none := by
  decide

/-- C15 (amended): a `PackedValidationTextureFormat` is not validated. Whatever
the sum of the widths, also when it exceeds the bit width of `T`, and for every
coordinate, `initializeTexel` (with shift counts below the promoted width of
`T`) returns a word: the low `bits` bits of the shift-and-or packing of the
field values converted to `T`; fields or parts of fields at bit positions from
`bits` on are dropped. -/
theorem overwide_configuration_accepted (bits r g b a : Nat) (x y z m l : Int)
    (hr : r < promotedBits bits) (hg : g < promotedBits bits) :
    (a = 0 →
      (PackedValidationTextureFormat.mk bits r g b a).initializeTexel x y z m l =
        some ((((toStorage bits z <<< g) ||| toStorage bits (intAdd y l)) <<< r |||
          toStorage bits (intAdd x m)) % 2 ^ bits)) ∧
    (0 < a → b < promotedBits bits →
      (PackedValidationTextureFormat.mk bits r g b a).initializeTexel x y z m l =
        some ((((((toStorage bits m <<< b) ||| toStorage bits z) <<< g) |||
          toStorage bits y) <<< r ||| toStorage bits (intAdd x l)) % 2 ^ bits)) := by
  constructor
  · intro ha
    subst ha
    exact initializeTexel_three_trunc bits r g b x y z m l hr hg
  · intro ha hb
    exact initializeTexel_four_trunc bits r g b a x y z m l (by omega) hr hg hb

/-- Witness of C15: the over-wide widths `(8, 8, 8, 0)` on a 16-bit word. -/
theorem overwide_configuration_accepted_witness :
    (PackedValidationTextureFormat.mk 16 8 8 8 0).initializeTexel 1 1 1 0 0 =
      some ((((toStorage 16 1 <<< 8) ||| toStorage 16 (intAdd 1 0)) <<< 8 |||
        toStorage 16 (intAdd 1 0)) % 2 ^ 16) :=
  (overwide_configuration_accepted 16 8 8 8 0 1 1 1 0 0 (by decide) (by decide)).1 rfl

/-! ## Overflowing fields -/

/-- The fields unpacked from a truncated word are the fields of the untruncated
word, when the widths sum to at most the bit width of the storage type. -/
theorem unpackTexel_trunc (bits r g b a u : Nat) (hr : r < 32) (hg : g < 32) (hb : b < 32)
    (ha : a < 32) (hsum : r + g + b + a ≤ bits) :
    (PackedValidationTextureFormat.mk bits r g b a).unpackTexel (u % 2 ^ bits) =
      some [u % 2 ^ r, (u >>> r) % 2 ^ g, (u >>> r >>> g) % 2 ^ b,
        (u >>> r >>> g >>> b) % 2 ^ a] := by
  rw [unpackTexel_natCast bits r g b a _ hr hg hb ha (Nat.mod_lt _ (Nat.two_pow_pos bits))]
  have e0 : u % 2 ^ bits % 2 ^ r = u % 2 ^ r :=
    Nat.mod_mod_of_dvd u (pow_dvd_pow 2 (by omega))
  have e1 := mod_shr_mod u r g bits (by omega)
  have e2 := mod_shr_mod u (r + g) b bits (by omega)
  have e3 := mod_shr_mod u (r + g + b) a bits (by omega)
  simp only [Nat.shiftRight_add] at e2 e3
  simp only [← Nat.shiftRight_eq_div_pow, e0, e1, e2, e3]

/-- The 32-bit wrap does not change the low `r` bits, for `r ≤ 32`. -/
theorem wrapInt32_emod (v : Int) (r : Nat) (hr : r ≤ 32) :
    wrapInt32 v % 2 ^ r = v % 2 ^ r := by
  unfold wrapInt32
  have hd : (2 : Int) ^ r ∣ 2 ^ 32 := pow_dvd_pow 2 hr
  have h1 : (v + 2 ^ 31) % 2 ^ 32 - 2 ^ 31 = v - 2 ^ 32 * ((v + 2 ^ 31) / 2 ^ 32) := by
    have := Int.emod_add_ediv (v + 2 ^ 31) (2 ^ 32)
    omega
  rw [h1]
  obtain ⟨c, hc⟩ := hd
  have h2 : v - 2 ^ 32 * ((v + 2 ^ 31) / 2 ^ 32) =
      v + 2 ^ r * (-(c * ((v + 2 ^ 31) / 2 ^ 32))) := by
    rw [hc]
    ring
  rw [h2, Int.add_mul_emod_self_left]

/-- The low `r` bits of a converted `int` sum are the low bits of the exact sum. -/
theorem toStorage_intAdd_mod (bits r x m : Nat) (hr : r ≤ 32) (hrb : r ≤ bits) :
    toStorage bits (intAdd (x : Int) (m : Int)) % 2 ^ r = (x + m) % 2 ^ r := by
  have hpos : (0 : Int) < 2 ^ bits := by positivity
  have h1 : ((toStorage bits (intAdd (x : Int) (m : Int)) : Nat) : Int) =
      intAdd (x : Int) (m : Int) % 2 ^ bits := by
    unfold toStorage
    exact Int.toNat_of_nonneg (Int.emod_nonneg _ (ne_of_gt hpos))
  have h2 : ((toStorage bits (intAdd (x : Int) (m : Int)) % 2 ^ r : Nat) : Int) =
      (((x + m) % 2 ^ r : Nat) : Int) := by
    push_cast
    rw [h1, Int.emod_emod_of_dvd _ (pow_dvd_pow 2 hrb)]
    unfold intAdd
    rw [wrapInt32_emod _ r hr]
  exact_mod_cast h2

/-- A converted `int` sum that fits a field of at most 31 bits is the exact sum. -/
theorem toStorage_intAdd_fits (bits r x m : Nat) (hr : r < 32) (hrb : r ≤ bits)
    (h : x + m < 2 ^ r) : toStorage bits (intAdd (x : Int) (m : Int)) = x + m := by
  have h31 : x + m < 2 ^ 31 := lt_of_lt_of_le h (Nat.pow_le_pow_right (by norm_num) (by omega))
  have hb : x + m < 2 ^ bits := lt_of_lt_of_le h (Nat.pow_le_pow_right (by norm_num) hrb)
  rw [intAdd_natCast x m h31, toStorage_natCast, Nat.mod_eq_of_lt hb]

/-- A value below `2^n` has no bits from position `n` on. -/
theorem shr_eq_zero (v n : Nat) (h : v < 2 ^ n) : v >>> n = 0 := by
  rw [Nat.shiftRight_eq_div_pow, Nat.div_eq_of_lt h]

/-- A shift-and-or step respects agreement on the low `w` bits. -/
theorem shift_or_mod_congr (w n t t' f f' : Nat) (ht : t % 2 ^ w = t' % 2 ^ w)
    (hf : f % 2 ^ w = f' % 2 ^ w) :
    ((t <<< n) ||| f) % 2 ^ w = ((t' <<< n) ||| f') % 2 ^ w := by
  rw [or_mod_pow, ← shl_mod_pow t, ht, shl_mod_pow, hf, ← or_mod_pow]

/-- The low `bits` bits of a converted `int` sum are those of the exact sum, for
a storage type of at most 32 bits or a sum that does not leave the range of
`int`. -/
theorem toStorage_intAdd_low (bits x m : Nat) (h : bits ≤ 32 ∨ x + m < 2 ^ 31) :
    toStorage bits (intAdd (x : Int) (m : Int)) % 2 ^ bits = (x + m) % 2 ^ bits := by
  rcases h with h | h
  · exact toStorage_intAdd_mod bits bits x m h (le_refl _)
  · rw [intAdd_natCast x m h, toStorage_natCast, Nat.mod_mod]

/-- The low `bits` bits of a converted non-negative coordinate. -/
theorem toStorage_natCast_low (bits v : Nat) :
    toStorage bits (v : Int) % 2 ^ bits = v % 2 ^ bits := by
  rw [toStorage_natCast, Nat.mod_mod]

/-- The field above a field of width `n` in a word built by shift-and-or, when
overflow `e` from below is or-ed in: the next value or-ed with the overflow. -/
theorem leak_mod (t f e n : Nat) : (((t <<< n) ||| f) ||| e) % 2 ^ n = (f ||| e) % 2 ^ n := by
  rw [Nat.or_assoc, or_shift_mod]

/-- The bits above a field of width `n` in a word built by shift-and-or, when
overflow `e` from below is or-ed in. -/
theorem leak_shr (t f e n : Nat) : (((t <<< n) ||| f) ||| e) >>> n = t ||| ((f ||| e) >>> n) := by
  rw [Nat.or_assoc, or_shift_shr]

/-- C13 (as stated, refuted), at two inputs. With the RGB565-like format on a
16-bit word, the coordinate `x = 32` (others 0) overflows the 5-bit red field:
the word is `2^5`, and the green field is recovered as 1, not as
`(y+arrayLayer) mod 2^6 = 0`. With the 32-bit storage type and the widths
`(0, 0, 32, 0)`, whose sum is the bit width of `T`, the word stored for `z = 5`
is 5 but `unpackTexel` has no defined result (`1 << 32` on `int`). -/
theorem packed_overflow_truncates_counterexample :
    ((5 : Int) + 6 + 5 + 0 ≤ 16 ∧
      (PackedValidationTextureFormat.mk 16 5 6 5 0).initializeTexel 32 0 0 0 0 = some (2 ^ 5) ∧
      (PackedValidationTextureFormat.mk 16 5 6 5 0).unpackTexel (2 ^ 5) = some [0, 1, 0, 0] ∧
      (1 : Nat) ≠ (0 + 0) % 2 ^ 6) ∧
    ((0 : Int) + 0 + 32 + 0 ≤ 32 ∧
      (PackedValidationTextureFormat.mk 32 0 0 32 0).initializeTexel 0 0 5 0 0 = some 5 ∧
      (PackedValidationTextureFormat.mk 32 0 0 32 0).unpackTexel 5 = none) := by
  decide

/-- C13 (amended): for bit widths each at most 31 whose sum is at most the bit
width of `T`, and for every non-negative coordinate, also one whose field value
exceeds its width, `unpackTexel` applied to the word stored by `initializeTexel`
recovers the red field as its layout value modulo `2^rBits`, and every higher
field as its layout value or-ed with the overflow of the fields below it,
modulo `2^width`: with `R`, `G`, `B`, `A` the layout values,
`g = (G | R >> rBits) mod 2^gBits`,
`b = (B | (G | R >> rBits) >> gBits) mod 2^bBits`,
`a = (A | (B | (G | R >> rBits) >> gBits) >> bBits) mod 2^aBits`
(for a storage type wider than 32 bits: when the `int` sums do not exceed
`INT_MAX`). Hence a field is its layout value modulo `2^width` whenever every
lower-order field value fits its width, and an overflowing field never changes
a field below it. -/
theorem packed_overflow_truncates (bits r g b a x y z m l : Nat)
    (hsum : r + g + b + a ≤ bits)
    (hr : r < 32) (hg : g < 32) (hb : b < 32) (ha : a < 32) :
    (a = 0 → ∃ w o0 o1 o2 o3 : Nat,
      (PackedValidationTextureFormat.mk bits r g b a).initializeTexel x y z m l = some w ∧
      (PackedValidationTextureFormat.mk bits r g b a).unpackTexel w = some [o0, o1, o2, o3] ∧
      o0 = (x + m) % 2 ^ r ∧
      (x + m < 2 ^ r → o1 = (y + l) % 2 ^ g) ∧
      (x + m < 2 ^ r → y + l < 2 ^ g → o2 = z % 2 ^ b) ∧
      o3 = 0 ∧
      (bits ≤ 32 ∨ (x + m < 2 ^ 31 ∧ y + l < 2 ^ 31) →
        o1 = ((y + l) ||| (x + m) >>> r) % 2 ^ g ∧
        o2 = (z ||| ((y + l) ||| (x + m) >>> r) >>> g) % 2 ^ b)) ∧
    (0 < a → ∃ w o0 o1 o2 o3 : Nat,
      (PackedValidationTextureFormat.mk bits r g b a).initializeTexel x y z m l = some w ∧
      (PackedValidationTextureFormat.mk bits r g b a).unpackTexel w = some [o0, o1, o2, o3] ∧
      o0 = (x + l) % 2 ^ r ∧
      (x + l < 2 ^ r → o1 = y % 2 ^ g) ∧
      (x + l < 2 ^ r → y < 2 ^ g → o2 = z % 2 ^ b) ∧
      (x + l < 2 ^ r → y < 2 ^ g → z < 2 ^ b → o3 = m % 2 ^ a) ∧
      (bits ≤ 32 ∨ x + l < 2 ^ 31 →
        o1 = (y ||| (x + l) >>> r) % 2 ^ g ∧
        o2 = (z ||| (y ||| (x + l) >>> r) >>> g) % 2 ^ b ∧
        o3 = (m ||| (z ||| (y ||| (x + l) >>> r) >>> g) >>> b) % 2 ^ a)) := by
  have hp : 32 ≤ promotedBits bits := le_max_right _ _
  have low : ∀ v k : Nat, k ≤ bits → toStorage bits (v : Int) % 2 ^ k = v % 2 ^ k := fun v k hk => by
    rw [toStorage_natCast, Nat.mod_mod_of_dvd v (pow_dvd_pow 2 hk)]
  have fit : ∀ v k : Nat, k ≤ bits → v < 2 ^ k → toStorage bits (v : Int) = v := fun v k hk hv => by
    rw [toStorage_natCast,
      Nat.mod_eq_of_lt (lt_of_lt_of_le hv (Nat.pow_le_pow_right (by norm_num) hk))]
  constructor
  · intro ha0
    subst ha0
    have hu := unpackTexel_trunc bits r g b 0
      (((toStorage bits z <<< g) ||| toStorage bits (intAdd y l)) <<< r |||
        toStorage bits (intAdd x m)) hr hg hb (by omega) hsum
    refine ⟨_, _, _, _, _,
      initializeTexel_three_trunc bits r g b x y z m l (by omega) (by omega), hu,
      ?_, ?_, ?_, ?_, ?_⟩
    · rw [or_shift_mod, toStorage_intAdd_mod bits r x m (by omega) (by omega)]
    · intro h0
      rw [or_shift_shr, toStorage_intAdd_fits bits r x m hr (by omega) h0, shr_eq_zero _ _ h0,
        Nat.or_zero, or_shift_mod, toStorage_intAdd_mod bits g y l (by omega) (by omega)]
    · intro h0 h1
      rw [or_shift_shr, toStorage_intAdd_fits bits r x m hr (by omega) h0, shr_eq_zero _ _ h0,
        Nat.or_zero, or_shift_shr, toStorage_intAdd_fits bits g y l hg (by omega) h1,
        shr_eq_zero _ _ h1, Nat.or_zero, low z b (by omega)]
    · simp [Nat.mod_one]
    · intro hint
      have h0 : toStorage bits (intAdd (x : Int) (m : Int)) % 2 ^ bits = (x + m) % 2 ^ bits :=
        toStorage_intAdd_low bits x m (by omega)
      have h1 : toStorage bits (intAdd (y : Int) (l : Int)) % 2 ^ bits = (y + l) % 2 ^ bits :=
        toStorage_intAdd_low bits y l (by omega)
      have hw := shift_or_mod_congr bits r _ _ _ _
        (shift_or_mod_congr bits g _ _ _ _ (toStorage_natCast_low bits z) h1) h0
      have hu' := unpackTexel_trunc bits r g b 0
        ((((z <<< g) ||| (y + l)) <<< r) ||| (x + m)) hr hg hb (by omega) hsum
      rw [← hw, hu] at hu'
      simp only [Option.some.injEq, List.cons.injEq, and_true] at hu'
      obtain ⟨-, e1, e2, -⟩ := hu'
      refine ⟨?_, ?_⟩
      · rw [e1, or_shift_shr, leak_mod]
      · rw [e2, or_shift_shr, leak_shr]
  · intro ha0
    have hu := unpackTexel_trunc bits r g b a
      ((((((toStorage bits m <<< b) ||| toStorage bits z) <<< g) ||| toStorage bits y) <<< r) |||
        toStorage bits (intAdd x l)) hr hg hb ha hsum
    refine ⟨_, _, _, _, _,
      initializeTexel_four_trunc bits r g b a x y z m l (by omega) (by omega) (by omega)
        (by omega), hu, ?_, ?_, ?_, ?_, ?_⟩
    · rw [or_shift_mod, toStorage_intAdd_mod bits r x l (by omega) (by omega)]
    · intro h0
      rw [or_shift_shr, toStorage_intAdd_fits bits r x l hr (by omega) h0, shr_eq_zero _ _ h0,
        Nat.or_zero, or_shift_mod, low y g (by omega)]
    · intro h0 h1
      rw [or_shift_shr, toStorage_intAdd_fits bits r x l hr (by omega) h0, shr_eq_zero _ _ h0,
        Nat.or_zero, or_shift_shr, fit y g (by omega) h1, shr_eq_zero _ _ h1, Nat.or_zero,
        or_shift_mod, low z b (by omega)]
    · intro h0 h1 h2
      rw [or_shift_shr, toStorage_intAdd_fits bits r x l hr (by omega) h0, shr_eq_zero _ _ h0,
        Nat.or_zero, or_shift_shr, fit y g (by omega) h1, shr_eq_zero _ _ h1, Nat.or_zero,
        or_shift_shr, fit z b (by omega) h2, shr_eq_zero _ _ h2, Nat.or_zero,
        low m a (by omega)]
    · intro hint
      have h0 : toStorage bits (intAdd (x : Int) (l : Int)) % 2 ^ bits = (x + l) % 2 ^ bits :=
        toStorage_intAdd_low bits x l hint
      have hw := shift_or_mod_congr bits r _ _ _ _
        (shift_or_mod_congr bits g _ _ _ _
          (shift_or_mod_congr bits b _ _ _ _ (toStorage_natCast_low bits m)
            (toStorage_natCast_low bits z))
          (toStorage_natCast_low bits y)) h0
      have hu' := unpackTexel_trunc bits r g b a
        ((((((m <<< b) ||| z) <<< g) ||| y) <<< r) ||| (x + l)) hr hg hb ha hsum
      rw [← hw, hu] at hu'
      simp only [Option.some.injEq, List.cons.injEq, and_true] at hu'
      obtain ⟨-, e1, e2, e3⟩ := hu'
      refine ⟨?_, ?_, ?_⟩
      · rw [e1, or_shift_shr, leak_mod]
      · rw [e2, or_shift_shr, leak_shr, leak_mod]
      · rw [e3, or_shift_shr, leak_shr, leak_shr]

/-- Witness of C13: the RGB565-like format at `x = 33`, `y = 2`: the overflow 1
of the red field is or-ed into the green field, which is recovered as 3. -/
theorem packed_overflow_truncates_witness :
    ∃ w o0 o1 o2 o3 : Nat,
      (PackedValidationTextureFormat.mk 16 5 6 5 0).initializeTexel 33 2 0 0 0 = some w ∧
      (PackedValidationTextureFormat.mk 16 5 6 5 0).unpackTexel w = some [o0, o1, o2, o3] ∧
      o0 = (33 + 0) % 2 ^ 5 ∧
      (33 + 0 < 2 ^ 5 → o1 = (2 + 0) % 2 ^ 6) ∧
      (33 + 0 < 2 ^ 5 → 2 + 0 < 2 ^ 6 → o2 = 0 % 2 ^ 5) ∧
      o3 = 0 ∧
      (16 ≤ 32 ∨ (33 + 0 < 2 ^ 31 ∧ 2 + 0 < 2 ^ 31) →
        o1 = ((2 + 0) ||| (33 + 0) >>> 5) % 2 ^ 6 ∧
        o2 = (0 ||| ((2 + 0) ||| (33 + 0) >>> 5) >>> 6) % 2 ^ 5) :=
  (packed_overflow_truncates 16 5 6 5 0 33 2 0 0 0 (by decide) (by decide) (by decide)
    (by decide) (by decide)).1 rfl

/-! ## Agreement of initialize and compare -/

/-- The packed `initializeTexel` returns a value of the storage type whenever
its shift counts are in `[0, 32)`. -/
theorem initializeTexel_defined (fmt : PackedValidationTextureFormat) (x y z m l : Int)
    (hr : 0 ≤ fmt.rBits ∧ fmt.rBits < 32) (hg : 0 ≤ fmt.gBits ∧ fmt.gBits < 32)
    (hb : 0 ≤ fmt.bBits ∧ fmt.bBits < 32) :
    ∃ w : Nat, fmt.initializeTexel x y z m l = some w ∧ w < 2 ^ fmt.bits := by
  obtain ⟨bits, r, g, b, a⟩ := fmt
  simp only at hr hg hb ⊢
  have hp : 32 ≤ promotedBits bits := le_max_right _ _
  obtain ⟨r, rfl⟩ := Int.eq_ofNat_of_zero_le hr.1
  obtain ⟨g, rfl⟩ := Int.eq_ofNat_of_zero_le hg.1
  obtain ⟨b, rfl⟩ := Int.eq_ofNat_of_zero_le hb.1
  by_cases ha : a = 0
  · subst ha
    exact ⟨_, initializeTexel_three_trunc bits r g b x y z m l (by omega) (by omega),
      Nat.mod_lt _ (Nat.two_pow_pos bits)⟩
  · exact ⟨_, initializeTexel_four_trunc bits r g b a x y z m l ha (by omega) (by omega)
      (by omega), Nat.mod_lt _ (Nat.two_pow_pos bits)⟩

/-- C12: initialize and compare agree. Uniform codec, component count in
`{1, 2, 3, 4}`: two blocks written by `initializeTexel` at the same coordinate,
over any prior contents, compare with `componentCount` passing checks. Packed
codec, any bit widths: the comparison of a word with itself never contains a
failing check, it is either four passing checks or, for a width outside
`[0, 31]` where the shift `1 << width` of `unpackTexel` is undefined, without a
result; for widths in `[0, 31]` (whatever their sum) and every coordinate,
`initializeTexel` stores a word and comparing it with itself gives four passing
checks. -/
theorem initialize_compare_agreement {T : Type} [DecidableEq T] (cast : Int → T)
    (componentCount : Int) (fmt : PackedValidationTextureFormat) (temp temp' : Nat → T)
    (x y z m l : Int) :
    ((componentCount = 1 ∨ componentCount = 2 ∨ componentCount = 3 ∨ componentCount = 4) →
      ∃ blk blk' : Nat → T,
        (ValidationTextureFormat.mk componentCount).initializeTexel cast temp x y z m l =
          some blk ∧
        (ValidationTextureFormat.mk componentCount).initializeTexel cast temp' x y z m l =
          some blk' ∧
        (ValidationTextureFormat.mk componentCount).validateBlocksEqual blk blk' =
          List.replicate componentCount.toNat true) ∧
    (∀ w : Nat, fmt.validateBlocksEqual w w = none ∨
      fmt.validateBlocksEqual w w = some [true, true, true, true]) ∧
    ((0 ≤ fmt.rBits ∧ fmt.rBits < 32) → (0 ≤ fmt.gBits ∧ fmt.gBits < 32) →
      (0 ≤ fmt.bBits ∧ fmt.bBits < 32) → (0 ≤ fmt.aBits ∧ fmt.aBits < 32) →
      ∃ w : Nat, fmt.initializeTexel x y z m l = some w ∧
        fmt.validateBlocksEqual w w = some [true, true, true, true]) := by
  refine ⟨?_, ?_, ?_⟩
  · intro hcc
    rcases hcc with rfl | rfl | rfl | rfl <;> refine ⟨_, _, rfl, rfl, ?_⟩ <;>
      simp [ValidationTextureFormat.validateBlocksEqual, store, List.range_succ,
        List.replicate]
  · intro w
    cases hu : fmt.unpackTexel w with
    | none =>
      left
      exact (validateBlocksEqual_eq_none fmt w w).mpr (Or.inl hu)
    | some u =>
      right
      rw [validateBlocksEqual_of_unpack fmt w w u u hu hu]
      simp [List.range_succ]
  · intro hr hg hb ha
    obtain ⟨w, hw, hlt⟩ := initializeTexel_defined fmt x y z m l hr hg hb
    refine ⟨w, hw, ?_⟩
    rw [validateBlocksEqual_of_unpack fmt w w _ _ (unpackTexel_defined fmt w hr hg hb ha hlt)
      (unpackTexel_defined fmt w hr hg hb ha hlt)]
    simp [List.range_succ]

/-- Witness of C12: four uniform `uint8_t` components, and the RGB10A2-like
packed format. -/
theorem initialize_compare_agreement_witness :
    (∃ blk blk' : Nat → Int,
      (ValidationTextureFormat.mk 4).initializeTexel (fun v => v % 256) (fun _ => 0)
        3 2 0 1 1 = some blk ∧
      (ValidationTextureFormat.mk 4).initializeTexel (fun v => v % 256) (fun _ => 7)
        3 2 0 1 1 = some blk' ∧
      (ValidationTextureFormat.mk 4).validateBlocksEqual blk blk' =
        List.replicate (4 : Int).toNat true) ∧
    (∃ w : Nat, (PackedValidationTextureFormat.mk 32 10 10 10 2).initializeTexel 3 2 0 1 1 =
        some w ∧
      (PackedValidationTextureFormat.mk 32 10 10 10 2).validateBlocksEqual w w =
        some [true, true, true, true]) :=
  ⟨(initialize_compare_agreement (fun v => v % 256) 4
      (PackedValidationTextureFormat.mk 32 10 10 10 2) (fun _ => 0) (fun _ => 7)
      3 2 0 1 1).1 (by decide),
    (initialize_compare_agreement (fun v => v % 256) 4
      (PackedValidationTextureFormat.mk 32 10 10 10 2) (fun _ => 0) (fun _ => 7)
      3 2 0 1 1).2.2 (by decide) (by decide) (by decide) (by decide)⟩

/-! ## Initialize as a function of the coordinate -/

/-- Storing the same value twice at the same index is storing it once. -/
theorem store_store {T : Type} (temp : Nat → T) (k : Nat) (v : T) :
    store (store temp k v) k v = store temp k v := by
  funext i
  simp only [store]
  split_ifs <;> rfl

/-- The uniform `initializeTexel` with a supported component count: the blocks
written over two prior contents agree on the first `componentCount` elements,
every other element keeps its prior value, and a second run changes nothing. -/
theorem uniform_initialize_pure {T : Type} (cast : Int → T) (componentCount : Int)
    (hcc : componentCount = 1 ∨ componentCount = 2 ∨ componentCount = 3 ∨ componentCount = 4)
    (temp temp' : Nat → T) (x y z m l : Int) :
    ∃ blk blk' : Nat → T,
      (ValidationTextureFormat.mk componentCount).initializeTexel cast temp x y z m l =
        some blk ∧
      (ValidationTextureFormat.mk componentCount).initializeTexel cast temp' x y z m l =
        some blk' ∧
      (∀ i : Nat, (i : Int) < componentCount → blk i = blk' i) ∧
      (∀ i : Nat, ¬ (i : Int) < componentCount → blk i = temp i) ∧
      (ValidationTextureFormat.mk componentCount).initializeTexel cast blk x y z m l =
        some blk := by
  rcases hcc with rfl | rfl | rfl | rfl <;>
   (refine ⟨_, _, rfl, rfl, ?_, ?_, ?_⟩ <;>
    [(intro i hi
      have hi2 : i < 4 := by omega
      interval_cases i <;> first | rfl | (exfalso; omega));
     (intro i hi
      simp only [store]
      split_ifs <;> first | rfl | (exfalso; omega));
     (refine (rfl : _ = some _).trans (congrArg some ?_)
      funext i
      simp only [store]
      split_ifs <;> rfl)])

/-- The effect of the packed `initializeTexel` on a block, given its word. -/
theorem initializeTexelBlock_of_word (fmt : PackedValidationTextureFormat)
    (texel : Nat → Nat) (x y z m l : Int) (w : Nat)
    (h : fmt.initializeTexel x y z m l = some w) :
    fmt.initializeTexelBlock texel x y z m l = some (store texel 0 w) := by
  simp only [PackedValidationTextureFormat.initializeTexelBlock, h, Option.bind_eq_bind,
    Option.some_bind, Option.pure_def, bind, pure]

/-- C14: the texel content after `initializeTexel` depends only on the shape
parameters of the codec and on the five coordinates, not on the prior content
of the block. Uniform codec, component count in `{1, 2, 3, 4}`: over any two
prior blocks the call returns blocks that agree on the first `componentCount`
elements, and a second run on the result leaves it unchanged (for another count
the call aborts, whatever the prior block). Packed codec: whether the call has
a result does not depend on the prior block; when it has, the same word is
stored as element 0 over any prior block and a second run leaves the block
unchanged; it has a result whenever the shift counts are in `[0, 32)`. -/
theorem initialize_pure_function {T : Type} (cast : Int → T) (componentCount : Int)
    (fmt : PackedValidationTextureFormat) (temp temp' : Nat → T) (texel texel' : Nat → Nat)
    (x y z m l : Int) :
    ((componentCount = 1 ∨ componentCount = 2 ∨ componentCount = 3 ∨ componentCount = 4) →
      ∃ blk blk' : Nat → T,
        (ValidationTextureFormat.mk componentCount).initializeTexel cast temp x y z m l =
          some blk ∧
        (ValidationTextureFormat.mk componentCount).initializeTexel cast temp' x y z m l =
          some blk' ∧
        (∀ i : Nat, (i : Int) < componentCount → blk i = blk' i) ∧
        (∀ i : Nat, ¬ (i : Int) < componentCount → blk i = temp i) ∧
        (ValidationTextureFormat.mk componentCount).initializeTexel cast blk x y z m l =
          some blk) ∧
    (¬ (componentCount = 1 ∨ componentCount = 2 ∨ componentCount = 3 ∨ componentCount = 4) →
      (ValidationTextureFormat.mk componentCount).initializeTexel cast temp x y z m l = none ∧
      (ValidationTextureFormat.mk componentCount).initializeTexel cast temp' x y z m l = none) ∧
    ((fmt.initializeTexelBlock texel x y z m l = none ∧
        fmt.initializeTexelBlock texel' x y z m l = none) ∨
      ∃ w : Nat, fmt.initializeTexel x y z m l = some w ∧
        fmt.initializeTexelBlock texel x y z m l = some (store texel 0 w) ∧
        fmt.initializeTexelBlock texel' x y z m l = some (store texel' 0 w) ∧
        fmt.initializeTexelBlock (store texel 0 w) x y z m l = some (store texel 0 w)) ∧
    ((0 ≤ fmt.rBits ∧ fmt.rBits < 32) → (0 ≤ fmt.gBits ∧ fmt.gBits < 32) →
      (0 ≤ fmt.bBits ∧ fmt.bBits < 32) →
      ∃ w : Nat, fmt.initializeTexelBlock texel x y z m l = some (store texel 0 w)) := by
  refine ⟨fun hcc => uniform_initialize_pure cast componentCount hcc temp temp' x y z m l,
    ?_, ?_, ?_⟩
  · intro hcc
    constructor <;> rw [initializeTexel_eq_stores, if_neg hcc]
  · cases h : fmt.initializeTexel x y z m l with
    | none =>
      left
      simp [PackedValidationTextureFormat.initializeTexelBlock, h, bind]
    | some w =>
      right
      refine ⟨w, rfl, initializeTexelBlock_of_word fmt texel x y z m l w h,
        initializeTexelBlock_of_word fmt texel' x y z m l w h, ?_⟩
      rw [initializeTexelBlock_of_word fmt _ x y z m l w h, store_store]
  · intro hr hg hb
    obtain ⟨w, hw, -⟩ := initializeTexel_defined fmt x y z m l hr hg hb
    exact ⟨w, initializeTexelBlock_of_word fmt texel x y z m l w hw⟩

/-- Witness of C14: three uniform `uint8_t` components over two different prior
blocks. -/
theorem initialize_pure_function_witness :
    ∃ blk blk' : Nat → Int,
      (ValidationTextureFormat.mk 3).initializeTexel (fun v => v % 256) (fun _ => 0)
        1 2 3 4 5 = some blk ∧
      (ValidationTextureFormat.mk 3).initializeTexel (fun v => v % 256) (fun _ => 9)
        1 2 3 4 5 = some blk' ∧
      (∀ i : Nat, (i : Int) < 3 → blk i = blk' i) ∧
      (∀ i : Nat, ¬ (i : Int) < 3 → blk i = (fun _ => 0) i) ∧
      (ValidationTextureFormat.mk 3).initializeTexel (fun v => v % 256) blk 1 2 3 4 5 =
        some blk :=
  (initialize_pure_function (fun v => v % 256) 3 (PackedValidationTextureFormat.mk 16 5 6 5 0)
    (fun _ => 0) (fun _ => 9) (fun _ => 0) (fun _ => 1) 1 2 3 4 5).1 (by decide)

/-! ## Packed compare and the declared bits -/

/-- Two words agree on their low `n + k` bits iff they agree on the low `n`
bits and on the next `k` bits. -/
theorem mod_split (n k t u : Nat) :
    t % 2 ^ (n + k) = u % 2 ^ (n + k) ↔
      (t % 2 ^ n = u % 2 ^ n ∧ t / 2 ^ n % 2 ^ k = u / 2 ^ n % 2 ^ k) := by
  rw [pow_add, Nat.mod_mul, Nat.mod_mul]
  have hpos : 0 < 2 ^ n := Nat.two_pow_pos n
  constructor
  · intro h
    have h1 : (t % 2 ^ n + 2 ^ n * (t / 2 ^ n % 2 ^ k)) % 2 ^ n =
        (u % 2 ^ n + 2 ^ n * (u / 2 ^ n % 2 ^ k)) % 2 ^ n := by rw [h]
    rw [Nat.add_mul_mod_self_left, Nat.add_mul_mod_self_left, Nat.mod_mod, Nat.mod_mod] at h1
    refine ⟨h1, ?_⟩
    rw [h1] at h
    exact Nat.eq_of_mul_eq_mul_left hpos (Nat.add_left_cancel h)
  · rintro ⟨h1, h2⟩
    rw [h1, h2]

/-- Two words have the same four fields iff they agree on the low
`r + g + b + a` bits. -/
theorem fields_eq_iff (r g b a t u : Nat) :
    (t % 2 ^ r = u % 2 ^ r ∧ t / 2 ^ r % 2 ^ g = u / 2 ^ r % 2 ^ g ∧
      t / 2 ^ r / 2 ^ g % 2 ^ b = u / 2 ^ r / 2 ^ g % 2 ^ b ∧
      t / 2 ^ r / 2 ^ g / 2 ^ b % 2 ^ a = u / 2 ^ r / 2 ^ g / 2 ^ b % 2 ^ a) ↔
      t % 2 ^ (r + g + b + a) = u % 2 ^ (r + g + b + a) := by
  have e : r + g + b + a = r + (g + (b + a)) := by omega
  rw [e, mod_split r, mod_split g, mod_split b]

/-- The packed comparison for widths below 32: the four checks in terms of the
fields of the two words. -/
theorem validateBlocksEqual_natCast (bits r g b a t u : Nat) (hr : r < 32) (hg : g < 32)
    (hb : b < 32) (ha : a < 32) (ht : t < 2 ^ bits) (hu : u < 2 ^ bits) :
    (PackedValidationTextureFormat.mk bits r g b a).validateBlocksEqual t u =
      some [decide (t % 2 ^ r = u % 2 ^ r), decide (t / 2 ^ r % 2 ^ g = u / 2 ^ r % 2 ^ g),
        decide (t / 2 ^ r / 2 ^ g % 2 ^ b = u / 2 ^ r / 2 ^ g % 2 ^ b),
        decide (t / 2 ^ r / 2 ^ g / 2 ^ b % 2 ^ a = u / 2 ^ r / 2 ^ g / 2 ^ b % 2 ^ a)] := by
  rw [validateBlocksEqual_of_unpack _ t u _ _ (unpackTexel_natCast bits r g b a t hr hg hb ha ht)
    (unpackTexel_natCast bits r g b a u hr hg hb ha hu)]
  rfl

/-- C18 (as stated, refuted): with the 32-bit storage type and the widths
`(0, 0, 32, 0)`, whose sum is the bit width of `T`, the comparison has no defined
result for any pair of words (`unpackTexel` evaluates `1 << 32` on `int`); in
particular it does not succeed on the equal words 5 and 5. -/
theorem packed_compare_declared_bits_counterexample :
    (0 : Int) + 0 + 32 + 0 ≤ 32 ∧ (5 : Nat) % 2 ^ (0 + 0 + 32 + 0) = 5 % 2 ^ (0 + 0 + 32 + 0) ∧
    (PackedValidationTextureFormat.mk 32 0 0 32 0).validateBlocksEqual 5 5 = none ∧
    (∀ t u : Nat, (PackedValidationTextureFormat.mk 32 0 0 32 0).validateBlocksEqual t u = none) := by
  refine ⟨by decide, by decide, by decide, ?_⟩
  intro t u
  rfl

/-- C18 (amended): for bit widths each at most 31 with sum `S` (at most the bit
width of `T`, or not), and every pair of storage words, `validateBlocksEqual` returns
four checks that all pass if and only if `actual mod 2^S = expected mod 2^S`:
bits at positions from `S` on are ignored, and when `S` is the bit width of `T`
the comparison succeeds iff the two words are equal. -/
theorem packed_compare_declared_bits (bits r g b a actual expected : Nat) (hr : r < 32) (hg : g < 32) (hb : b < 32) (ha : a < 32)
    (hact : actual < 2 ^ bits) (hexp : expected < 2 ^ bits) :
    ∃ checks : List Bool,
      (PackedValidationTextureFormat.mk bits r g b a).validateBlocksEqual actual expected =
        some checks ∧ checks.length = 4 ∧
      (checks.all id = true ↔
        actual % 2 ^ (r + g + b + a) = expected % 2 ^ (r + g + b + a)) ∧
      (r + g + b + a = bits → (checks.all id = true ↔ actual = expected)) := by
  have key : ([decide (actual % 2 ^ r = expected % 2 ^ r),
      decide (actual / 2 ^ r % 2 ^ g = expected / 2 ^ r % 2 ^ g),
      decide (actual / 2 ^ r / 2 ^ g % 2 ^ b = expected / 2 ^ r / 2 ^ g % 2 ^ b),
      decide (actual / 2 ^ r / 2 ^ g / 2 ^ b % 2 ^ a =
        expected / 2 ^ r / 2 ^ g / 2 ^ b % 2 ^ a)].all id = true ↔
      actual % 2 ^ (r + g + b + a) = expected % 2 ^ (r + g + b + a)) := by
    rw [← fields_eq_iff]
    simp [and_assoc]
  refine ⟨_, validateBlocksEqual_natCast bits r g b a actual expected hr hg hb ha hact hexp,
    rfl, key, ?_⟩
  intro hS
  rw [key, hS, Nat.mod_eq_of_lt hact, Nat.mod_eq_of_lt hexp]

/-- Witness of C18: the B5G5R5A1-like widths `(5, 5, 5, 1)` declare all 16 bits
of the word. -/
theorem packed_compare_declared_bits_witness :
    ∃ checks : List Bool,
      (PackedValidationTextureFormat.mk 16 5 5 5 1).validateBlocksEqual 40000 40001 =
        some checks ∧ checks.length = 4 ∧
      (checks.all id = true ↔ 40000 % 2 ^ (5 + 5 + 5 + 1) = 40001 % 2 ^ (5 + 5 + 5 + 1)) ∧
      (5 + 5 + 5 + 1 = 16 → (checks.all id = true ↔ 40000 = 40001)) :=
  packed_compare_declared_bits 16 5 5 5 1 40000 40001 (by decide) (by decide) (by decide)
    (by decide) (by decide) (by decide)

/-! ## Coordinate sensitivity of the packed codec -/

/-- Round trip of the branch `aBits == 0` for field values that fit. -/
theorem roundTrip_three (bits r g b x y z m l : Nat) (hsum : r + g + b ≤ bits)
    (hr : r < 32) (hg : g < 32) (hb : b < 32)
    (hx : x + m < 2 ^ r) (hy : y + l < 2 ^ g) (hz : z < 2 ^ b) :
    ∃ w : Nat, (PackedValidationTextureFormat.mk bits r g b 0).initializeTexel x y z m l =
        some w ∧ w < 2 ^ bits ∧
      (PackedValidationTextureFormat.mk bits r g b 0).unpackTexel w =
        some [x + m, y + l, z, 0] := by
  have hp : 32 ≤ promotedBits bits := le_max_right _ _
  have small : ∀ k v : Nat, k < 32 → v < 2 ^ k → v < 2 ^ 31 := fun k v hk hv =>
    lt_of_lt_of_le hv (Nat.pow_le_pow_right (by norm_num) (by omega))
  have k1 := horner_lt z (y + l) g b hz hy
  have k2 := horner_lt _ (x + m) r (b + g) k1 hx
  have hw : (z * 2 ^ g + (y + l)) * 2 ^ r + (x + m) < 2 ^ bits :=
    lt_of_lt_of_le k2 (Nat.pow_le_pow_right (by norm_num) (by omega))
  refine ⟨_, initializeTexel_three bits r g b x y z m l (by omega) (by omega) hsum
    hx hy hz (small r _ hr hx) (small g _ hg hy), hw, ?_⟩
  have h3 := unpackTexel_natCast bits r g b 0 _ hr hg hb (by omega) hw
  rw [horner_mod _ _ r hx, horner_div _ _ r hx, horner_mod _ _ g hy, horner_div _ _ g hy,
    Nat.mod_eq_of_lt hz, Nat.div_eq_of_lt hz] at h3
  simpa using h3

/-- Round trip of the branch `aBits != 0` for field values that fit. -/
theorem roundTrip_four (bits r g b a x y z m l : Nat) (ha0 : 0 < a)
    (hsum : r + g + b + a ≤ bits)
    (hr : r < 32) (hg : g < 32) (hb : b < 32) (ha : a < 32)
    (hx : x + l < 2 ^ r) (hy : y < 2 ^ g) (hz : z < 2 ^ b) (hm : m < 2 ^ a) :
    ∃ w : Nat, (PackedValidationTextureFormat.mk bits r g b a).initializeTexel x y z m l =
        some w ∧ w < 2 ^ bits ∧
      (PackedValidationTextureFormat.mk bits r g b a).unpackTexel w =
        some [x + l, y, z, m] := by
  have small : ∀ k v : Nat, k < 32 → v < 2 ^ k → v < 2 ^ 31 := fun k v hk hv =>
    lt_of_lt_of_le hv (Nat.pow_le_pow_right (by norm_num) (by omega))
  have k1 := horner_lt m z b a hm hz
  have k2 := horner_lt _ y g (a + b) k1 hy
  have k3 := horner_lt _ (x + l) r (a + b + g) k2 hx
  have hw : ((m * 2 ^ b + z) * 2 ^ g + y) * 2 ^ r + (x + l) < 2 ^ bits :=
    lt_of_lt_of_le k3 (Nat.pow_le_pow_right (by norm_num) (by omega))
  refine ⟨_, initializeTexel_four bits r g b a x y z m l ha0 hsum hx hy hz hm
    (small r _ hr hx), hw, ?_⟩
  have h3 := unpackTexel_natCast bits r g b a _ hr hg hb ha hw
  rw [horner_mod _ _ r hx, horner_div _ _ r hx, horner_mod _ _ g hy, horner_div _ _ g hy,
    horner_mod _ _ b hz, horner_div _ _ b hz, Nat.mod_eq_of_lt hm] at h3
  simpa using h3

/-- Two words whose unpacked arrays differ are different, and their comparison
has a failing check. -/
theorem mismatch_of_unpack (fmt : PackedValidationTextureFormat) (w w' : Nat)
    (f0 f1 f2 f3 f0' f1' f2' f3' : Nat)
    (hu : fmt.unpackTexel w = some [f0, f1, f2, f3])
    (hu' : fmt.unpackTexel w' = some [f0', f1', f2', f3'])
    (hne : f0 ≠ f0' ∨ f1 ≠ f1' ∨ f2 ≠ f2' ∨ f3 ≠ f3') :
    w ≠ w' ∧ ∃ checks : List Bool, fmt.validateBlocksEqual w w' = some checks ∧
      ∃ k : Nat, checks[k]? = some false := by
  constructor
  · intro heq
    subst heq
    rw [hu] at hu'
    simp only [Option.some.injEq, List.cons.injEq, and_true] at hu'
    omega
  · refine ⟨_, validateBlocksEqual_of_unpack fmt w w' _ _ hu hu', ?_⟩
    rcases hne with h | h | h | h
    · exact ⟨0, by rw [fourChecks_getElem]; simp [h]⟩
    · exact ⟨1, by rw [fourChecks_getElem]; simp [h]⟩
    · exact ⟨2, by rw [fourChecks_getElem]; simp [h]⟩
    · exact ⟨3, by rw [fourChecks_getElem]; simp [h]⟩

/-- C19 (as stated, refuted): with the 32-bit storage type and the widths
`(0, 0, 32, 0)`, whose sum is the bit width of `T`, the coordinates
`(0, 0, 0, 0, 0)` and `(0, 0, 1, 0, 0)` differ in `z` only and their field
values fit; the words stored, 0 and 1, differ, but their comparison has no
defined result (`unpackTexel` evaluates `1 << 32` on `int`) and so reports no
mismatching field. -/
theorem packed_coordinate_sensitivity_counterexample :
    ((0 : Int) + 0 + 32 + 0 ≤ 32 ∧ (0 : Int) ≠ 1 ∧ (0 : Int) + 0 < 2 ^ 0 ∧ (0 : Int) < 2 ^ 32 ∧
      (1 : Int) < 2 ^ 32) ∧
    (PackedValidationTextureFormat.mk 32 0 0 32 0).initializeTexel 0 0 0 0 0 = some 0 ∧
    (PackedValidationTextureFormat.mk 32 0 0 32 0).initializeTexel 0 0 1 0 0 = some 1 ∧
    (PackedValidationTextureFormat.mk 32 0 0 32 0).validateBlocksEqual 0 1 = none := by
  decide

/-- C19 (amended): for bit widths each at most 31 whose sum is at most the bit
width of `T`, and two non-negative coordinate tuples that differ in exactly one
of `x`, `y`, `z`, `mipLevel`, `arrayLayer` and whose layout field values all fit
their widths, the words stored by `initializeTexel` differ and
`validateBlocksEqual` on them has a failing check. -/
theorem packed_coordinate_sensitivity (bits r g b a x y z m l x' y' z' m' l' : Nat)
    (hsum : r + g + b + a ≤ bits)
    (hr : r < 32) (hg : g < 32) (hb : b < 32) (ha : a < 32)
    (hdiff : (x ≠ x' ∧ y = y' ∧ z = z' ∧ m = m' ∧ l = l') ∨
      (x = x' ∧ y ≠ y' ∧ z = z' ∧ m = m' ∧ l = l') ∨
      (x = x' ∧ y = y' ∧ z ≠ z' ∧ m = m' ∧ l = l') ∨
      (x = x' ∧ y = y' ∧ z = z' ∧ m ≠ m' ∧ l = l') ∨
      (x = x' ∧ y = y' ∧ z = z' ∧ m = m' ∧ l ≠ l')) :
    (a = 0 → x + m < 2 ^ r → y + l < 2 ^ g → z < 2 ^ b →
      x' + m' < 2 ^ r → y' + l' < 2 ^ g → z' < 2 ^ b →
      ∃ (w w' : Nat) (checks : List Bool),
        (PackedValidationTextureFormat.mk bits r g b a).initializeTexel x y z m l = some w ∧
        (PackedValidationTextureFormat.mk bits r g b a).initializeTexel x' y' z' m' l' =
          some w' ∧
        w ≠ w' ∧
        (PackedValidationTextureFormat.mk bits r g b a).validateBlocksEqual w w' =
          some checks ∧
        ∃ k : Nat, checks[k]? = some false) ∧
    (0 < a → x + l < 2 ^ r → y < 2 ^ g → z < 2 ^ b → m < 2 ^ a →
      x' + l' < 2 ^ r → y' < 2 ^ g → z' < 2 ^ b → m' < 2 ^ a →
      ∃ (w w' : Nat) (checks : List Bool),
        (PackedValidationTextureFormat.mk bits r g b a).initializeTexel x y z m l = some w ∧
        (PackedValidationTextureFormat.mk bits r g b a).initializeTexel x' y' z' m' l' =
          some w' ∧
        w ≠ w' ∧
        (PackedValidationTextureFormat.mk bits r g b a).validateBlocksEqual w w' =
          some checks ∧
        ∃ k : Nat, checks[k]? = some false) := by
  constructor
  · intro ha0 hx hy hz hx' hy' hz'
    subst ha0
    obtain ⟨w, hw, -, hu⟩ := roundTrip_three bits r g b x y z m l (by omega) hr hg hb hx hy hz
    obtain ⟨w', hw', -, hu'⟩ :=
      roundTrip_three bits r g b x' y' z' m' l' (by omega) hr hg hb hx' hy' hz'
    obtain ⟨hne, checks, hc, hk⟩ := mismatch_of_unpack _ w w' _ _ _ _ _ _ _ _ hu hu' (by omega)
    exact ⟨w, w', checks, hw, hw', hne, hc, hk⟩
  · intro ha0 hx hy hz hm hx' hy' hz' hm'
    obtain ⟨w, hw, -, hu⟩ :=
      roundTrip_four bits r g b a x y z m l ha0 hsum hr hg hb ha hx hy hz hm
    obtain ⟨w', hw', -, hu'⟩ :=
      roundTrip_four bits r g b a x' y' z' m' l' ha0 hsum hr hg hb ha hx' hy' hz' hm'
    obtain ⟨hne, checks, hc, hk⟩ := mismatch_of_unpack _ w w' _ _ _ _ _ _ _ _ hu hu' (by omega)
    exact ⟨w, w', checks, hw, hw', hne, hc, hk⟩

/-- Witness of C19: the RGB10A2-like format, two coordinates that differ in
`mipLevel` only. -/
theorem packed_coordinate_sensitivity_witness :
    ∃ (w w' : Nat) (checks : List Bool),
      (PackedValidationTextureFormat.mk 32 10 10 10 2).initializeTexel 3 4 5 1 2 = some w ∧
      (PackedValidationTextureFormat.mk 32 10 10 10 2).initializeTexel 3 4 5 2 2 = some w' ∧
      w ≠ w' ∧
      (PackedValidationTextureFormat.mk 32 10 10 10 2).validateBlocksEqual w w' = some checks ∧
      ∃ k : Nat, checks[k]? = some false :=
  (packed_coordinate_sensitivity 32 10 10 10 2 3 4 5 1 2 3 4 5 2 2 (by decide) (by decide)
    (by decide) (by decide) (by decide) (by decide)).2 (by decide) (by decide) (by decide)
    (by decide) (by decide) (by decide) (by decide) (by decide) (by decide)

end gfx_test
